import Mathlib

/-!
Shallow embedding of the mfat FAT16/FAT32 library (mfat.c / mfat.h) and
verification of its specification claims.

Buffers (512-byte device blocks, path strings) are modelled as `List Nat`
of byte values; C `uint32_t` arithmetic is `Nat` arithmetic with explicit
`% 2^32` where the C computation can wrap.  Device callbacks are modelled
as pure functions: `rd : Nat → Option (List Nat)` (`none` = the callback
returned -1) and `wr : Nat → List Nat → Bool` (`false` = -1).  Loops whose
termination is not structural are given explicit fuel mirroring the C
iteration bound.
-/

namespace MFat

/-- `MFAT_BLOCK_SIZE`. -/
def blockSize : Nat := 512

/-- 2^32, the modulus of C `uint32_t` arithmetic. -/
def u32 : Nat := 4294967296

/-- C `uint32_t` subtraction `a - b` (wraps modulo 2^32). -/
def u32sub (a b : Nat) : Nat := (a + u32 - b % u32) % u32

/-- `_mfat_min`. -/
def mfatMin (a b : Nat) : Nat := if a < b then a else b

/-- `_mfat_get_word buf+off`: little-endian 16-bit decode. -/
def getWord (buf : List Nat) (off : Nat) : Nat :=
  buf.getD off 0 + (buf.getD (off + 1) 0) * 256

/-- `_mfat_get_dword buf+off`: little-endian 32-bit decode. -/
def getDword (buf : List Nat) (off : Nat) : Nat :=
  buf.getD off 0 + (buf.getD (off + 1) 0) * 256 +
    (buf.getD (off + 2) 0) * 65536 + (buf.getD (off + 3) 0) * 16777216

/-- `_mfat_cmpbuf (a+aoff) (b+boff) n`: byte-wise buffer comparison. -/
def cmpbuf (a b : List Nat) (aoff boff n : Nat) : Bool :=
  (List.range n).all (fun i => a.getD (aoff + i) 0 == b.getD (boff + i) 0)

/-- Bytes of a Lean string (to build concrete C path arguments). -/
def strBytes (s : String) : List Nat := s.toList.map Char.toNat

/-! ## 8.3 name canonicalization (`_mfat_canonicalize_char`, `_mfat_canonicalize_fname`) -/

/-- The character set accepted verbatim by `_mfat_canonicalize_char`:
`A..Z 0..9 $ % - _ @ ~ `` ! ( ) { } ^ # &`. -/
def validFnameChar (c : Nat) : Bool :=
  (65 ≤ c && c ≤ 90) || (48 ≤ c && c ≤ 57) || c == 36 || c == 37 || c == 45 ||
  c == 95 || c == 64 || c == 126 || c == 96 || c == 33 || c == 40 || c == 41 ||
  c == 123 || c == 125 || c == 94 || c == 35 || c == 38

/-- `_mfat_canonicalize_char`: keep valid characters, upper-case `a..z`,
map everything else to `!` (33). -/
def canonChar (c : Nat) : Nat :=
  if validFnameChar c then c
  else if 97 ≤ c && c ≤ 122 then c - 32
  else 33

/-- Name-part terminators of `_mfat_canonicalize_fname`: NUL, `.`, `/`, `\`. -/
def isNameTerm (c : Nat) : Bool := c == 0 || c == 46 || c == 47 || c == 92

/-- Extension-part terminators: NUL, `/`, `\`. -/
def isExtTerm (c : Nat) : Bool := c == 0 || c == 47 || c == 92

/-- Scan a path until a terminator byte; reading past the end of the list is
the C NUL terminator (terminator 0).  Returns (scanned bytes, terminator,
remainder after the terminator). -/
def splitPart (term : Nat → Bool) : List Nat → List Nat × Nat × List Nat
  | [] => ([], 0, [])
  | c :: rest =>
    if term c then ([], c, rest)
    else
      let r := splitPart term rest
      (c :: r.1, r.2.1, r.2.2)

/-- Space-pad a byte list on the right to length `n` (the `name[npos] = ' '`
fill loops). -/
def spacePad (n : Nat) (l : List Nat) : List Nat :=
  l ++ List.replicate (n - l.length) 32

/-- `path[pos] != 0` test of `_mfat_canonicalize_fname` on the remainder list. -/
def headNonzero : List Nat → Bool
  | [] => false
  | c :: _ => c != 0

/-- One iteration of the do-while body of `_mfat_canonicalize_fname`:
produce the 11-byte name for the leading path component, the terminator
that ended it, and the remaining path after that terminator. -/
def canonPart (path : List Nat) : List Nat × Nat × List Nat :=
  let s1 := splitPart isNameTerm path
  let namePart := spacePad 8 ((s1.1.map canonChar).take 8)
  if s1.2.1 = 46 then
    let e := splitPart isExtTerm s1.2.2
    (namePart ++ spacePad 3 ((e.1.map canonChar).take 3), e.2.1, e.2.2)
  else (namePart ++ List.replicate 3 32, s1.2.1, s1.2.2)

/-- `_mfat_canonicalize_fname` with explicit fuel for its do-while loop
(each loop iteration consumes at least one byte of the path, so
`path.length + 1` fuel is always sufficient and the fuel-exhausted case
is unreachable; this is proved below as `canonFnameF_fuel`).
Returns the 11-byte canonicalized name and the remaining path
(`none` encodes the C return value -1: this was the last component). -/
def canonFnameF : Nat → List Nat → List Nat × Option (List Nat)
  | 0, _ => ([], none)
  | fuel + 1, path =>
    let c := canonPart path
    if (c.2.1 = 47 ∨ c.2.1 = 92) ∧ headNonzero c.2.2 then
      if c.1 = List.replicate 11 32 then canonFnameF fuel c.2.2
      else (c.1, some c.2.2)
    else (c.1, none)

/-- `_mfat_canonicalize_fname` (see `canonFnameF`). -/
def canonFname (path : List Nat) : List Nat × Option (List Nat) :=
  canonFnameF (path.length + 1) path

/-- The 11-byte canonicalized 8.3 name of the leading path component. -/
def canonName (path : List Nat) : List Nat := (canonFname path).1

/-! ## Directory-block entry scan (`_mfat_find_file`, inner `for offs` loop) -/

/-- Result of scanning one 512-byte directory block. -/
inductive ScanResult where
  | noMore
  | found (offs : Nat)
  | notFound
deriving DecidableEq

/-- The inner directory-entry loop of `_mfat_find_file`: walk the 32-byte
entries of a 512-byte block; first byte 0x00 ends the directory
(`no_more_entries`), an entry is returned when its 11-byte name field
equals `fname`.  The fuel bounds the loop's iterations (17 always
suffices from offset 0, the loop visits offsets 0, 32, …, 480). -/
def scanDirEntries (buf fname : List Nat) : Nat → Nat → ScanResult
  | 0, _ => .notFound
  | fuel + 1, offs =>
    if offs < 512 then
      if buf.getD offs 0 = 0 then .noMore
      else if cmpbuf buf fname offs 0 11 then .found offs
      else scanDirEntries buf fname fuel (offs + 32)
    else .notFound

/-- Scan of a whole directory block (the C loop starts at `offs = 0`). -/
def scanDirBlock (buf fname : List Nat) : ScanResult := scanDirEntries buf fname 17 0

/-! ## Block cache (`mfat_cached_block_t`, `mfat_cache_t`, `_mfat_get_cached_block`,
`_mfat_read_block`, `_mfat_sync_impl`).  The default configuration
`MFAT_NUM_CACHED_BLOCKS = 2` compiles the `> 1` variant with the priority
queue, which is what we model (with a list of slots of any length `N`). -/

/-- `mfat_cached_block_t::state`: `MFAT_INVALID` / `MFAT_VALID` / `MFAT_DIRTY`. -/
inductive BlockState where
  | invalid
  | valid
  | dirty
deriving DecidableEq

/-- `mfat_cached_block_t`. -/
structure CachedBlock where
  state : BlockState := .invalid
  blk_no : Nat := 0
  buf : List Nat := []
deriving DecidableEq

instance : Inhabited CachedBlock := ⟨{}⟩

/-- `mfat_cache_t`: slots plus the MRU priority queue (front = most
recently used, back = LRU). -/
structure Cache where
  block : List CachedBlock
  pri : List Nat
deriving DecidableEq

/-- The device read callback: `none` models a -1 return. -/
abbrev ReadFun := Nat → Option (List Nat)

/-- The device write callback: `false` models a -1 return. -/
abbrev WriteFun := Nat → List Nat → Bool

/-- The move-to-front shift loop of `_mfat_get_cached_block`:
`prev = item; for i: this = pri[i]; pri[i] = prev; if this = item break; prev = this`. -/
def mtfAux (prev item : Nat) : List Nat → List Nat
  | [] => []
  | x :: xs => prev :: (if x = item then xs else mtfAux x item xs)

/-- Move `item` to the front of the priority queue. -/
def moveToFront (item : Nat) (l : List Nat) : List Nat := mtfAux item item l

/-- The cache-hit scan of `_mfat_get_cached_block`: first slot with
`state ≠ MFAT_INVALID` and matching `blk_no`. -/
def cacheHit (blocks : List CachedBlock) (blk_no : Nat) : Option Nat :=
  blocks.findIdx? (fun cb => cb.state != .invalid && cb.blk_no == blk_no)

/-- `_mfat_get_cached_block` on one cache: select the slot (LRU by default,
overridden on a hit), promote it in the MRU queue, and if it is being
reassigned flush it when dirty (a write-callback failure returns `none`
with the slot untouched) and mark it invalid with the new block number.
Returns the index of the selected slot. -/
def getCachedBlock (wr : WriteFun) (blk_no : Nat) (cache : Cache) :
    Option Nat × Cache :=
  let item_id := (cacheHit cache.block blk_no).getD (cache.pri.getLastD 0)
  let pri := moveToFront item_id cache.pri
  let cb := cache.block.getD item_id default
  if cb.blk_no ≠ blk_no then
    if cb.state = .dirty ∧ wr cb.blk_no cb.buf = false then
      (none, { cache with pri := pri })
    else
      (some item_id,
        { block := cache.block.set item_id { cb with blk_no := blk_no, state := .invalid },
          pri := pri })
  else (some item_id, { cache with pri := pri })

/-- `_mfat_read_block` on one cache: get the cached slot and, if its buffer
is invalid, fill it from the device read callback. -/
def readBlock (rd : ReadFun) (wr : WriteFun) (blk_no : Nat) (cache : Cache) :
    Option Nat × Cache :=
  match getCachedBlock wr blk_no cache with
  | (none, c) => (none, c)
  | (some i, c) =>
    let cb := c.block.getD i default
    if cb.state = .invalid then
      match rd blk_no with
      | none => (none, c)
      | some buf =>
        (some i, { c with block := c.block.set i { cb with state := .valid, buf := buf } })
    else (some i, c)

/-- Buffer of slot `i` of a cache. -/
def slotBuf (cache : Cache) (i : Nat) : List Nat := (cache.block.getD i default).buf

/-- The per-cache flush loop of `_mfat_sync_impl`: write every dirty slot
(the write callback's result is ignored) and mark it valid. -/
def syncCache (cache : Cache) : Cache :=
  { cache with
    block := cache.block.map (fun cb =>
      if cb.state = .dirty then { cb with state := .valid } else cb) }

/-- Spec §3/§8 cache invariant, part 1: no two non-Invalid slots of one
cache hold the same block number. -/
def CacheDistinct (blocks : List CachedBlock) : Prop :=
  ∀ i, i < blocks.length → ∀ j, j < blocks.length →
    (i ≠ j ∧ (blocks.getD i default).state ≠ .invalid ∧
      (blocks.getD j default).state ≠ .invalid) →
    (blocks.getD i default).blk_no ≠ (blocks.getD j default).blk_no

/-- Spec §3/§8 cache invariant: slot distinctness plus the MRU priority
list being a permutation of `{0,…,N-1}`. -/
def CacheInv (cache : Cache) : Prop :=
  CacheDistinct cache.block ∧ cache.pri.Perm (List.range cache.block.length)

/-- The two cache classes (`MFAT_CACHE_DATA`, `MFAT_CACHE_FAT`). -/
structure Caches where
  data : Cache
  fat : Cache
deriving DecidableEq

/-- Cache class selector (`cache_type` argument). -/
inductive CacheClass where
  | data
  | fat
deriving DecidableEq

def Caches.get : Caches → CacheClass → Cache
  | cs, .data => cs.data
  | cs, .fat => cs.fat

def Caches.set : Caches → CacheClass → Cache → Caches
  | cs, .data, c => { cs with data := c }
  | cs, .fat, c => { cs with fat := c }

/-- `_mfat_read_block` against the cache pair; returns the selected slot's
buffer directly (the C returns a pointer into the slot). -/
def readBlockC (rd : ReadFun) (wr : WriteFun) (blk_no : Nat) (cls : CacheClass)
    (cs : Caches) : Option (List Nat) × Caches :=
  match readBlock rd wr blk_no (cs.get cls) with
  | (none, c) => (none, cs.set cls c)
  | (some i, c) => (some (slotBuf c i), cs.set cls c)

/-- `_mfat_sync_impl`: flush both caches. -/
def syncImpl (cs : Caches) : Caches :=
  { data := syncCache cs.data, fat := syncCache cs.fat }

/-! ## Partitions and the FAT chain walker (`mfat_partition_t`, `_mfat_next_cluster`,
`_mfat_first_block_of_cluster`, `mfat_cluster_pos_t`). -/

/-- `mfat_partition_t`.  `type` values: 0 = `MFAT_TYPE_UNKNOWN`,
1 = `MFAT_TYPE_FAT_UNDECIDED`, 2 = `MFAT_TYPE_FAT16`, 3 = `MFAT_TYPE_FAT32`. -/
structure Partition where
  type : Nat := 0
  first_block : Nat := 0
  num_blocks : Nat := 0
  blocks_per_cluster : Nat := 0
  num_clusters : Nat := 0
  blocks_per_fat : Nat := 0
  num_fats : Nat := 0
  num_reserved_blocks : Nat := 0
  root_dir_block : Nat := 0
  blocks_in_root_dir : Nat := 0
  root_dir_cluster : Nat := 0
  first_data_block : Nat := 0
  boot : Bool := false
deriving DecidableEq

instance : Inhabited Partition := ⟨{}⟩

/-- FAT entry size in bytes: 4 for FAT32, else 2. -/
def fatEntrySize (part : Partition) : Nat := if part.type = 3 then 4 else 2

/-- `fat_offset = fat_entry_size * cluster` (uint32). -/
def fatOffset (part : Partition) (cluster : Nat) : Nat :=
  (fatEntrySize part * cluster) % u32

/-- `fat_block = first_block + num_reserved_blocks + fat_offset / 512` (uint32). -/
def fatBlockNo (part : Partition) (cluster : Nat) : Nat :=
  (part.first_block + part.num_reserved_blocks + fatOffset part cluster / 512) % u32

/-- `fat_block_offset = fat_offset % 512`. -/
def fatBlockOffset (part : Partition) (cluster : Nat) : Nat :=
  fatOffset part cluster % 512

/-- FAT entry decoding of `_mfat_next_cluster`: FAT32 masks the dword with
`0x0fffffff`; FAT16 takes the word and ORs `0x0fff0000` onto values
`≥ 0xfff7` (BAD/EOC normalization into the FAT32 numeric range). -/
def decodeFatEntry (part : Partition) (buf : List Nat) (off : Nat) : Nat :=
  if part.type = 3 then getDword buf off &&& 0x0fffffff
  else
    let w := getWord buf off
    if w ≥ 0xfff7 then w ||| 0x0fff0000 else w

/-- `_mfat_next_cluster`: read the FAT block through the FAT cache, decode
the entry, and fail on a free (0) or BAD (`0x0ffffff7`) value. -/
def nextCluster (rd : ReadFun) (wr : WriteFun) (part : Partition) (cluster : Nat)
    (cs : Caches) : Option Nat × Caches :=
  match readBlockC rd wr (fatBlockNo part cluster) .fat cs with
  | (none, cs1) => (none, cs1)
  | (some buf, cs1) =>
    let next := decodeFatEntry part buf (fatBlockOffset part cluster)
    if next = 0 ∨ next = 0x0ffffff7 then (none, cs1) else (some next, cs1)

/-- `_mfat_first_block_of_cluster`: `first_data_block + (cluster - 2)·blocks_per_cluster`
in uint32 arithmetic (the `cluster - 2U` subtraction wraps). -/
def firstBlockOfCluster (part : Partition) (cluster : Nat) : Nat :=
  (part.first_data_block + ((cluster + u32 - 2) % u32) * part.blocks_per_cluster) % u32

/-- Bytes per cluster, `blocks_per_cluster * MFAT_BLOCK_SIZE` (uint32). -/
def clusterBytes (part : Partition) : Nat := (part.blocks_per_cluster * 512) % u32

/-- `_mfat_is_eoc`. -/
def isEoc (cluster : Nat) : Bool := cluster ≥ 0x0ffffff8

/-- `mfat_cluster_pos_t`. -/
structure ClusterPos where
  cluster_no : Nat := 0
  block_in_cluster : Nat := 0
  cluster_start_blk : Nat := 0
deriving DecidableEq

instance : Inhabited ClusterPos := ⟨{}⟩

/-- `_mfat_cluster_pos_init`.  (When `blocks_per_cluster` is zero the C
`offset % 0` is undefined behaviour; Lean's total `% 0` stands in for it.) -/
def clusterPosInit (part : Partition) (cluster_no offset : Nat) : ClusterPos :=
  { cluster_no := cluster_no,
    block_in_cluster := (offset % clusterBytes part) / 512,
    cluster_start_blk := firstBlockOfCluster part cluster_no }

/-- `_mfat_cluster_pos_init_from_file`. -/
def clusterPosInitFromFile (part : Partition) (current_cluster offset : Nat) : ClusterPos :=
  clusterPosInit part current_cluster offset

/-- `_mfat_cluster_pos_blk_no`. -/
def cposBlkNo (cpos : ClusterPos) : Nat :=
  (cpos.cluster_start_blk + cpos.block_in_cluster) % u32

/-- `_mfat_cluster_pos_advance`: step one block; at the cluster boundary
follow the FAT chain and recompute the cluster start block. -/
def clusterPosAdvance (rd : ReadFun) (wr : WriteFun) (part : Partition)
    (cpos : ClusterPos) (cs : Caches) : Option ClusterPos × Caches :=
  let bic := (cpos.block_in_cluster + 1) % u32
  if bic = part.blocks_per_cluster then
    match nextCluster rd wr part cpos.cluster_no cs with
    | (none, cs1) => (none, cs1)
    | (some c, cs1) =>
      (some { cluster_no := c, block_in_cluster := 0,
              cluster_start_blk := firstBlockOfCluster part c }, cs1)
  else (some { cpos with block_in_cluster := bic }, cs)

/-! ## File descriptors and `read`/`lseek` (`mfat_file_t`, `_mfat_read_impl`,
`_mfat_lseek_impl`). -/

/-- `mfat_file_info_t`. -/
structure FileInfo where
  part_no : Nat := 0
  size : Nat := 0
  first_cluster : Nat := 0
  dir_entry_block : Nat := 0
  dir_entry_offset : Nat := 0
deriving DecidableEq

instance : Inhabited FileInfo := ⟨{}⟩

/-- `mfat_file_t` (`open` is a Lean keyword, hence `isOpen`). -/
structure File where
  isOpen : Bool := false
  oflag : Nat := 0
  offset : Nat := 0
  current_cluster : Nat := 0
  info : FileInfo := {}
deriving DecidableEq

instance : Inhabited File := ⟨{}⟩

/-- The aligned middle phase of `_mfat_read_impl`: while at least one whole
block remains, refuse EOC positions, read the block straight from the
device into the caller's buffer (bypassing the cache), and advance.
Returns the bytes read by this phase and the final cursor.  The fuel
bounds the loop's iterations (`remaining / 512 + 1`, as supplied by
`readImpl`, always suffices, so the fuel-exhausted arm is unreachable). -/
def readBody (rd : ReadFun) (wr : WriteFun) (part : Partition) :
    Nat → Nat → ClusterPos → Caches → Option (Nat × ClusterPos) × Caches
  | 0, _, _, cs => (none, cs)
  | fuel + 1, remaining, cpos, cs =>
    if remaining ≥ 512 then
      if isEoc cpos.cluster_no then (none, cs)
      else
        match rd (cposBlkNo cpos) with
        | none => (none, cs)
        | some _ =>
          match clusterPosAdvance rd wr part cpos cs with
          | (none, cs1) => (none, cs1)
          | (some cpos1, cs1) =>
            match readBody rd wr part fuel (remaining - 512) cpos1 cs1 with
            | (none, cs2) => (none, cs2)
            | (some (k, cp), cs2) => (some (512 + k, cp), cs2)
    else (some (0, cpos), cs)

/-- The head phase of `_mfat_read_impl`: when the file offset is not
block-aligned, read the current block through the data cache and copy
`min(tail_of_block, nbyte)` bytes; when the whole tail of the block was
consumed, advance the cursor.  Returns the bytes copied and the cursor
after the phase. -/
def readHead (rd : ReadFun) (wr : WriteFun) (part : Partition)
    (current_cluster offset nbyte : Nat) (cs : Caches) :
    Option (Nat × ClusterPos) × Caches :=
  let cpos0 := clusterPosInitFromFile part current_cluster offset
  let block_offset := offset % 512
  if block_offset ≠ 0 then
    match readBlockC rd wr (cposBlkNo cpos0) .data cs with
    | (none, cs1) => (none, cs1)
    | (some _, cs1) =>
      let tail_bytes_in_block := 512 - block_offset
      let bytes_to_copy := mfatMin tail_bytes_in_block nbyte
      if bytes_to_copy = tail_bytes_in_block then
        match clusterPosAdvance rd wr part cpos0 cs1 with
        | (none, cs2) => (none, cs2)
        | (some cp, cs2) => (some (bytes_to_copy, cp), cs2)
      else (some (bytes_to_copy, cpos0), cs1)
  else (some (0, cpos0), cs)

/-- `_mfat_read_impl`.  Result `none` models the C return value -1; on
success the result is the number of bytes read and the file descriptor is
updated (`offset`, `current_cluster`) at the very end. -/
def readImpl (rd : ReadFun) (wr : WriteFun) (part : Partition) (f : File)
    (nbyte0 : Nat) (cs : Caches) : Option Nat × File × Caches :=
  if f.oflag &&& 1 = 0 then (none, f, cs)
  else
    let avail := u32sub f.info.size f.offset
    let nbyte := if nbyte0 > avail then avail else nbyte0
    if nbyte = 0 then (some 0, f, cs)
    else
      match readHead rd wr part f.current_cluster f.offset nbyte cs with
      | (none, cs1) => (none, f, cs1)
      | (some (hb, cpos1), cs1) =>
        match readBody rd wr part ((nbyte - hb) / 512 + 1) (nbyte - hb) cpos1 cs1 with
        | (none, cs2) => (none, f, cs2)
        | (some (bb, cpos2), cs2) =>
          let bytes_read := hb + bb
          if bytes_read < nbyte then
            if isEoc cpos2.cluster_no then (none, f, cs2)
            else
              match readBlockC rd wr (cposBlkNo cpos2) .data cs2 with
              | (none, cs3) => (none, f, cs3)
              | (some _, cs3) =>
                (some nbyte,
                 { f with current_cluster := cpos2.cluster_no,
                          offset := (f.offset + nbyte) % u32 }, cs3)
          else
            (some bytes_read,
             { f with current_cluster := cpos2.cluster_no,
                      offset := (f.offset + bytes_read) % u32 }, cs2)

/-- The cluster-skip loop of `_mfat_lseek_impl`, with fuel (each iteration
advances `cluster_offset` by at least one when `blocks_per_cluster > 0`,
so `target + 1` fuel is always sufficient; fuel 0 is unreachable then). -/
def lseekWalk (rd : ReadFun) (wr : WriteFun) (part : Partition) :
    Nat → Nat → Nat → Nat → Caches → Option Nat × Caches
  | 0, _, _, _, cs => (none, cs)
  | fuel + 1, cur, coff, target, cs =>
    if u32sub target coff ≥ clusterBytes part then
      if isEoc cur then (none, cs)
      else
        match nextCluster rd wr part cur cs with
        | (none, cs1) => (none, cs1)
        | (some c, cs1) =>
          lseekWalk rd wr part fuel c ((coff + clusterBytes part) % u32) target cs1
    else (some cur, cs)

/-- `_mfat_lseek_impl`.  `whence`: 0 = SET, 1 = CUR, 2 = END; the target is
computed in 64-bit signed arithmetic (`Int` here) and rejected when
negative or beyond the file size. -/
def lseekImpl (rd : ReadFun) (wr : WriteFun) (part : Partition) (f : File)
    (offset : Int) (whence : Nat) (cs : Caches) : Option Nat × File × Caches :=
  let target64 : Option Int :=
    if whence = 0 then some offset
    else if whence = 2 then some ((f.info.size : Int) + offset)
    else if whence = 1 then some ((f.offset : Int) + offset)
    else none
  match target64 with
  | none => (none, f, cs)
  | some t =>
    if t < 0 then (none, f, cs)
    else if t > (f.info.size : Int) then (none, f, cs)
    else
      let target := t.toNat
      let cur := f.current_cluster
      let coff := f.offset - f.offset % clusterBytes part
      let start := if target < coff then (f.info.first_cluster, 0) else (cur, coff)
      match lseekWalk rd wr part (target + 1) start.1 start.2 target cs with
      | (none, cs1) => (none, f, cs1)
      | (some c, cs1) =>
        (some target, { f with offset := target, current_cluster := c }, cs1)

/-! ## Device-level view of the FAT chain.  These definitions express, as
pure functions of the device contents, what the cached operations above
compute in any reachable read-only state (where every cached block agrees
with the device); the correspondence is proved below. -/

/-- The FAT entry of `cluster` decoded straight from the device. -/
def fatDev (rd : ReadFun) (part : Partition) (cluster : Nat) : Option Nat :=
  match rd (fatBlockNo part cluster) with
  | none => none
  | some buf => some (decodeFatEntry part buf (fatBlockOffset part cluster))

/-- `_mfat_next_cluster` as a pure function of the device. -/
def fatNext (rd : ReadFun) (part : Partition) (cluster : Nat) : Option Nat :=
  match fatDev rd part cluster with
  | none => none
  | some v => if v = 0 ∨ v = 0x0ffffff7 then none else some v

/-- Follow the FAT chain `k` steps from `c` (spec §8 invariant 1's
"`first_cluster` walked `⌊offset / cluster_bytes⌋` times"). -/
def walkChain (rd : ReadFun) (part : Partition) : Nat → Nat → Option Nat
  | 0, c => some c
  | k + 1, c =>
    match fatNext rd part c with
    | none => none
    | some c2 => walkChain rd part k c2

/-- `_mfat_cluster_pos_advance` as a pure function of the device. -/
def advDev (rd : ReadFun) (part : Partition) (cpos : ClusterPos) : Option ClusterPos :=
  let bic := (cpos.block_in_cluster + 1) % u32
  if bic = part.blocks_per_cluster then
    match fatNext rd part cpos.cluster_no with
    | none => none
    | some c =>
      some { cluster_no := c, block_in_cluster := 0,
             cluster_start_blk := firstBlockOfCluster part c }
  else some { cpos with block_in_cluster := bic }

/-- The head phase of `_mfat_read_impl` as a pure function of the device
(on a total device the only failure is a chain failure in the advance). -/
def headPure (rd : ReadFun) (part : Partition) (current_cluster offset nbyte : Nat) :
    Option (Nat × ClusterPos) :=
  let cpos0 := clusterPosInitFromFile part current_cluster offset
  let block_offset := offset % 512
  if block_offset ≠ 0 then
    let tail_bytes_in_block := 512 - block_offset
    let bytes_to_copy := mfatMin tail_bytes_in_block nbyte
    if bytes_to_copy = tail_bytes_in_block then
      match advDev rd part cpos0 with
      | none => none
      | some cp => some (bytes_to_copy, cp)
    else some (bytes_to_copy, cpos0)
  else some (0, cpos0)

/-- The aligned middle phase of `_mfat_read_impl` as a pure function of
the device: `none` when an EOC position is reached with a whole block
still to read or the chain walk fails; otherwise the final cursor. -/
def bodyPure (rd : ReadFun) (part : Partition) : Nat → Nat → ClusterPos → Option ClusterPos
  | 0, _, _ => none
  | fuel + 1, remaining, cpos =>
    if remaining ≥ 512 then
      if isEoc cpos.cluster_no then none
      else
        match advDev rd part cpos with
        | none => none
        | some cp => bodyPure rd part fuel (remaining - 512) cp
    else some cpos

/-- The FAT chain supports the whole read `read(f, nbyte0)`: no phase of
`_mfat_read_impl` hits a premature End-of-Chain or a free/BAD FAT entry
(on a total device with clean caches these are the only failure modes). -/
def readOk (rd : ReadFun) (part : Partition) (f : File) (nbyte0 : Nat) : Bool :=
  let avail := u32sub f.info.size f.offset
  let nbyte := if nbyte0 > avail then avail else nbyte0
  if nbyte = 0 then true
  else
    match headPure rd part f.current_cluster f.offset nbyte with
    | none => false
    | some (hb, cpos1) =>
      match bodyPure rd part ((nbyte - hb) / 512 + 1) (nbyte - hb) cpos1 with
      | none => false
      | some cpos2 =>
        if hb + 512 * ((nbyte - hb) / 512) < nbyte then !isEoc cpos2.cluster_no else true

/-- All slots of a cache are clean and agree with the device (true of
every reachable state of this read-only library: nothing ever dirties a
block). -/
def CacheClean (rd : ReadFun) (cache : Cache) : Prop :=
  ∀ i, i < cache.block.length →
    (cache.block.getD i default).state ≠ .dirty ∧
    ((cache.block.getD i default).state = .valid →
      rd (cache.block.getD i default).blk_no = some (cache.block.getD i default).buf)

/-- Well-formed clean cache pair: both caches satisfy the structural
invariant, are clean, and are nonempty (`MFAT_NUM_CACHED_BLOCKS ≥ 1`). -/
def CachesGood (rd : ReadFun) (cs : Caches) : Prop :=
  (CacheInv cs.data ∧ CacheClean rd cs.data ∧ 0 < cs.data.block.length) ∧
  (CacheInv cs.fat ∧ CacheClean rd cs.fat ∧ 0 < cs.fat.block.length)

/-- Spec §3/§8 file-descriptor invariant: `current_cluster` is obtained by
walking the FAT chain `⌊offset / (blocks_per_cluster·512)⌋` steps from
`first_cluster`. -/
def fdInv (rd : ReadFun) (part : Partition) (f : File) : Prop :=
  walkChain rd part (f.offset / clusterBytes part) f.info.first_cluster =
    some f.current_cluster

/-- A cluster cursor standing at device-block index `b` of the file whose
chain starts at `first` (block index = byte offset / 512). -/
def cposOkB (rd : ReadFun) (part : Partition) (first b : Nat) (cpos : ClusterPos) : Prop :=
  walkChain rd part (b / part.blocks_per_cluster) first = some cpos.cluster_no ∧
  cpos.block_in_cluster = b % part.blocks_per_cluster ∧
  cpos.cluster_start_blk = firstBlockOfCluster part cpos.cluster_no

/-! ## Path resolution (`_mfat_find_file`) and `stat` decoding. -/

/-- Outcome of the directory-block loop of `_mfat_find_file` (the
`for (; file_entry == NULL && !no_more_entries && blocks_left > 0U; ++blocks_left)`
loop; note the loop update really is `++blocks_left`, so the count runs
upward and the loop ends when it wraps to zero). -/
inductive DirScanOut where
  | fail
  | noMore
  | found (blk offs : Nat) (buf : List Nat)
  | exhausted (cpos : ClusterPos) (bl : Nat)
deriving DecidableEq

/-- The directory-block loop of `_mfat_find_file`.  Fuel `2^32` covers the
maximal number of iterations before `blocks_left` wraps to zero, so the
fuel-exhausted arm is unreachable. -/
def findFileBlocks (rd : ReadFun) (wr : WriteFun) (part : Partition)
    (fname : List Nat) : Nat → ClusterPos → Nat → Caches → DirScanOut × Caches
  | 0, cpos, bl, cs => (.exhausted cpos bl, cs)
  | fuel + 1, cpos, bl, cs =>
    if bl = 0 then (.exhausted cpos bl, cs)
    else
      match readBlock rd wr (cposBlkNo cpos) (cs.get .data) with
      | (none, c) => (.fail, cs.set .data c)
      | (some i, c) =>
        let cs1 := cs.set .data c
        let buf := slotBuf c i
        let sblk := (c.block.getD i default).blk_no
        match scanDirBlock buf fname with
        | .noMore => (.noMore, cs1)
        | .found offs => (.found sblk offs buf, cs1)
        | .notFound =>
          let bl1 := (bl + 1) % u32
          if cpos.cluster_no ≠ 0 then
            match clusterPosAdvance rd wr part cpos cs1 with
            | (none, cs2) => (.fail, cs2)
            | (some cp, cs2) => findFileBlocks rd wr part fname fuel cp bl1 cs2
          else
            findFileBlocks rd wr part fname fuel
              { cpos with block_in_cluster := (cpos.block_in_cluster + 1) % u32 } bl1 cs1

/-- The outer path-component loop of `_mfat_find_file` (fuel bounds the
number of components; `path.length + 1` always suffices).  Returns the
found entry as (directory-entry block number, byte offset, block bytes),
or `none` when the walk fails or ends without a match. -/
def findFileOuter (rd : ReadFun) (wr : WriteFun) (part : Partition) :
    Nat → Option (List Nat) → ClusterPos → Nat → Caches →
    Option (Nat × Nat × List Nat) × Caches
  | 0, _, _, _, cs => (none, cs)
  | fuel + 1, pathOpt, cpos, bl, cs =>
    match pathOpt with
    | none => (none, cs)
    | some path =>
      let cf := canonFname path
      let bl1 := if cpos.cluster_no ≠ 0 then 4294967295 else bl
      match findFileBlocks rd wr part cf.1 u32 cpos bl1 cs with
      | (.fail, cs1) => (none, cs1)
      | (.noMore, cs1) => (none, cs1)
      | (.found blk offs buf, cs1) =>
        match cf.2 with
        | none => (some (blk, offs, buf), cs1)
        | some rest =>
          if buf.getD (offs + 11) 0 &&& 16 = 0 then (none, cs1)
          else
            let child := (getWord buf (offs + 20)) <<< 16 ||| getWord buf (offs + 26)
            findFileOuter rd wr part fuel (some rest) (clusterPosInit part child 0)
              4294967295 cs1
      | (.exhausted cp bl2, cs1) =>
        match cf.2 with
        | none => (none, cs1)
        | some rest => findFileOuter rd wr part fuel (some rest) cp bl2 cs1

/-- `_mfat_find_file`: resolve `path` on partition `part_no`; on success
returns the file info together with `is_dir` and `exists`. -/
def findFile (rd : ReadFun) (wr : WriteFun) (part_no : Nat) (parts : List Partition)
    (path : List Nat) (cs : Caches) : Option (FileInfo × Bool × Bool) × Caches :=
  let part := parts.getD part_no default
  let start : ClusterPos × Nat :=
    if part.type = 3 then (clusterPosInit part part.root_dir_cluster 0, 4294967295)
    else ({ cluster_no := 0, block_in_cluster := 0,
            cluster_start_blk := part.root_dir_block }, part.blocks_in_root_dir)
  match findFileOuter rd wr part (path.length + 1) (some path) start.1 start.2 cs with
  | (none, cs1) => (none, cs1)
  | (some (blk, offs, buf), cs1) =>
    let info : FileInfo :=
      { part_no := part_no,
        size := getDword buf (offs + 28),
        first_cluster := (getWord buf (offs + 20)) <<< 16 ||| getWord buf (offs + 26),
        dir_entry_block := blk,
        dir_entry_offset := offs }
    let b0 := buf.getD offs 0
    if b0 ≠ 0 ∧ b0 ≠ 0xe5 then
      (some (info, buf.getD (offs + 11) 0 &&& 16 ≠ 0, true), cs1)
    else (some (info, false, false), cs1)

/-- `mfat_time_t`. -/
structure MfatTime where
  year : Nat := 0
  month : Nat := 0
  day : Nat := 0
  hour : Nat := 0
  minute : Nat := 0
  second : Nat := 0
deriving DecidableEq

/-- `mfat_stat_t`. -/
structure MfatStat where
  st_mode : Nat := 0
  st_size : Nat := 0
  st_mtim : MfatTime := {}
deriving DecidableEq

/-- `_mfat_dir_entry_to_stat` (directory entry at `buf + off`). -/
def dirEntryToStat (buf : List Nat) (off : Nat) : MfatStat :=
  let attr := buf.getD (off + 11) 0
  let mode0 := 0x0100 ||| 0x0020 ||| 0x0004 ||| 0x0040 ||| 0x0008 ||| 0x0001
  let mode1 := if attr &&& 0x01 = 0 then mode0 ||| 0x0080 ||| 0x0010 ||| 0x0002 else mode0
  let mode2 := if attr &&& 0x10 ≠ 0 then mode1 ||| 0x4000 else mode1 ||| 0x8000
  let time := getWord buf (off + 22)
  let date := getWord buf (off + 24)
  { st_mode := mode2,
    st_size := getDword buf (off + 28),
    st_mtim :=
      { hour := time >>> 11, minute := (time >>> 5) &&& 63, second := (time &&& 31) * 2,
        year := (date >>> 9) + 1980, month := (date >>> 5) &&& 15, day := date &&& 31 } }

/-- `_mfat_fstat_impl`. -/
def fstatImpl (rd : ReadFun) (wr : WriteFun) (info : FileInfo) (cs : Caches) :
    Option MfatStat × Caches :=
  match readBlockC rd wr info.dir_entry_block .data cs with
  | (none, cs1) => (none, cs1)
  | (some buf, cs1) => (some (dirEntryToStat buf info.dir_entry_offset), cs1)

/-! ## The context and the public API (`mfat_ctx_t`, `mfat_*`).
Configuration: `MFAT_NUM_FDS = 4`, `MFAT_NUM_PARTITIONS = 4`.  The device
callbacks are passed as `rd`/`wr` parameters (in C they live in the context
as function pointers, set once by `mfat_mount`).  Public integer results
use `Int` so that -1 is literal. -/

/-- `mfat_ctx_t` (the `initialized` flag is called `initd` here). -/
structure Ctx where
  initd : Bool := false
  active_partition : Int := 0
  partition : List Partition := List.replicate 4 {}
  file : List File := List.replicate 4 {}
  caches : Caches := ⟨⟨[], []⟩, ⟨[], []⟩⟩
deriving DecidableEq

/-- `_mfat_get_file`: range-check the descriptor and require it open. -/
def getFile (ctx : Ctx) (fd : Int) : Option File :=
  if fd < 0 ∨ fd ≥ 4 then none
  else
    let f := ctx.file.getD fd.toNat default
    if f.isOpen then some f else none

/-- The partition-selection loop at the end of `mfat_mount` (state:
`first_boot_partition`, `active_partition`, both starting at -1, encoded
as `none`); `i` is the index of the first list element. -/
def mountSelectGo (i : Nat) (st : Option Nat × Option Nat) :
    List Partition → Option Nat × Option Nat
  | [] => st
  | p :: rest =>
    let st1 :=
      if p.type ≠ 0 then
        if p.boot = true ∧ st.1 = none then (some i, some i)
        else if st.2 = none then (st.1, some i)
        else st
      else st
    mountSelectGo (i + 1) st1 rest

/-- The partition selected by `mfat_mount` (`none`: mount returns -1). -/
def mountSelect (parts : List Partition) : Option Nat :=
  (mountSelectGo 0 (none, none) parts).2

/-- `mfat_select_partition`. -/
def mfatSelectPartition (ctx : Ctx) (partition_no : Int) : Int × Ctx :=
  if ctx.initd = false then (-1, ctx)
  else if partition_no < 0 ∨ partition_no ≥ 4 then (-1, ctx)
  else if (ctx.partition.getD partition_no.toNat default).type = 0 then (-1, ctx)
  else (0, { ctx with active_partition := partition_no })

/-- `_mfat_open_impl` (the free-descriptor search, path lookup — which
writes the descriptor's `info` before the `is_dir`/`exists` checks — and
descriptor initialization). -/
def openImpl (rd : ReadFun) (wr : WriteFun) (path : List Nat) (oflag : Nat)
    (ctx : Ctx) : Int × Ctx :=
  match (List.range 4).find? (fun fd => !(ctx.file.getD fd default).isOpen) with
  | none => (-1, ctx)
  | some fd =>
    match findFile rd wr ctx.active_partition.toNat ctx.partition path ctx.caches with
    | (none, cs1) => (-1, { ctx with caches := cs1 })
    | (some (info, is_dir, fexists), cs1) =>
      let f := ctx.file.getD fd default
      let f1 := { f with info := info }
      let ctx1 := { ctx with caches := cs1, file := ctx.file.set fd f1 }
      if is_dir = true then (-1, ctx1)
      else if fexists = false then (-1, ctx1)
      else
        let f2 := { f1 with isOpen := true, oflag := oflag, offset := 0,
                            current_cluster := info.first_cluster }
        ((fd : Int), { ctx1 with file := ctx.file.set fd f2 })

/-- `mfat_open` (the C `path == NULL` guard has no counterpart for a
by-value list; `oflag` must contain `MFAT_O_RDWR`-bits). -/
def mfatOpen (rd : ReadFun) (wr : WriteFun) (ctx : Ctx) (path : List Nat)
    (oflag : Nat) : Int × Ctx :=
  if ctx.initd = false ∨ ctx.active_partition < 0 then (-1, ctx)
  else if oflag &&& 3 = 0 then (-1, ctx)
  else openImpl rd wr path oflag ctx

/-- `mfat_close` (`_mfat_close_impl` flushes both caches when the file was
opened with write permission, then frees the slot). -/
def mfatClose (ctx : Ctx) (fd : Int) : Int × Ctx :=
  if ctx.initd = false then (-1, ctx)
  else
    match getFile ctx fd with
    | none => (-1, ctx)
    | some f =>
      let cs := if f.oflag &&& 2 ≠ 0 then syncImpl ctx.caches else ctx.caches
      (0, { ctx with caches := cs,
                     file := ctx.file.set fd.toNat { f with isOpen := false } })

/-- `mfat_read` (returns the byte count, or -1). -/
def mfatRead (rd : ReadFun) (wr : WriteFun) (ctx : Ctx) (fd : Int) (nbyte : Nat) :
    Int × Ctx :=
  if ctx.initd = false then (-1, ctx)
  else
    match getFile ctx fd with
    | none => (-1, ctx)
    | some f =>
      let part := ctx.partition.getD f.info.part_no default
      match readImpl rd wr part f nbyte ctx.caches with
      | (none, f1, cs1) =>
        (-1, { ctx with file := ctx.file.set fd.toNat f1, caches := cs1 })
      | (some k, f1, cs1) =>
        ((k : Int), { ctx with file := ctx.file.set fd.toNat f1, caches := cs1 })

/-- `mfat_write` (`_mfat_write_impl` is a stub returning -1 whatever the
permissions; the context is never changed). -/
def mfatWrite (ctx : Ctx) (fd : Int) (_nbyte : Nat) : Int × Ctx :=
  if ctx.initd = false then (-1, ctx)
  else
    match getFile ctx fd with
    | none => (-1, ctx)
    | some _ => (-1, ctx)

/-- `mfat_lseek`. -/
def mfatLseek (rd : ReadFun) (wr : WriteFun) (ctx : Ctx) (fd : Int) (offset : Int)
    (whence : Nat) : Int × Ctx :=
  if ctx.initd = false then (-1, ctx)
  else
    match getFile ctx fd with
    | none => (-1, ctx)
    | some f =>
      let part := ctx.partition.getD f.info.part_no default
      match lseekImpl rd wr part f offset whence ctx.caches with
      | (none, f1, cs1) =>
        (-1, { ctx with file := ctx.file.set fd.toNat f1, caches := cs1 })
      | (some k, f1, cs1) =>
        ((k : Int), { ctx with file := ctx.file.set fd.toNat f1, caches := cs1 })

/-- `mfat_stat` (`_mfat_stat_impl`); second component is the out-parameter. -/
def mfatStat (rd : ReadFun) (wr : WriteFun) (ctx : Ctx) (path : List Nat) :
    Int × Option MfatStat × Ctx :=
  if ctx.initd = false ∨ ctx.active_partition < 0 then (-1, none, ctx)
  else
    match findFile rd wr ctx.active_partition.toNat ctx.partition path ctx.caches with
    | (none, cs1) => (-1, none, { ctx with caches := cs1 })
    | (some (info, _, fexists), cs1) =>
      if fexists = false then (-1, none, { ctx with caches := cs1 })
      else
        match fstatImpl rd wr info cs1 with
        | (none, cs2) => (-1, none, { ctx with caches := cs2 })
        | (some st, cs2) => (0, some st, { ctx with caches := cs2 })

/-- `mfat_fstat` (`_mfat_fstat_impl`); second component is the out-parameter. -/
def mfatFstat (rd : ReadFun) (wr : WriteFun) (ctx : Ctx) (fd : Int) :
    Int × Option MfatStat × Ctx :=
  if ctx.initd = false then (-1, none, ctx)
  else
    match getFile ctx fd with
    | none => (-1, none, ctx)
    | some f =>
      match fstatImpl rd wr f.info ctx.caches with
      | (none, cs1) => (-1, none, { ctx with caches := cs1 })
      | (some st, cs1) => (0, some st, { ctx with caches := cs1 })

/-! ## Concrete data used by counterexamples and witnesses -/

/-- A 512-byte directory block whose first 32-byte entry carries the name
field `ABC        ` with attribute byte 0x0F (a long-name entry whose name
field happens to coincide with a canonical 8.3 name). -/
def lfnEntryBlock : List Nat :=
  [65, 66, 67, 32, 32, 32, 32, 32, 32, 32, 32, 15] ++ List.replicate 500 0

/-- A 512-byte directory block with a deleted entry (first byte 0xE5) at
offset 0 followed by a regular entry named `ABC        ` at offset 32. -/
def delEntryBlock : List Nat :=
  [0xe5, 66, 67, 32, 32, 32, 32, 32, 32, 32, 32, 0] ++ List.replicate 20 0 ++
  [65, 66, 67, 32, 32, 32, 32, 32, 32, 32, 32, 0x20] ++ List.replicate 468 0

/-- A partition table after mount decoding: a non-FAT slot, a non-bootable
FAT16 partition, and a bootable FAT32 partition. -/
def selParts : List Partition :=
  [{}, { type := 2, first_block := 2048 }, { type := 3, first_block := 40960, boot := true }]

/-- A two-slot cache whose LRU slot (index 0, at the back of the priority
list) is dirty for block 5 and whose other slot holds block 7. -/
def cexCache : Cache :=
  { block := [{ state := .dirty, blk_no := 5, buf := List.replicate 512 1 },
              { state := .valid, blk_no := 7, buf := List.replicate 512 2 }],
    pri := [1, 0] }

/-- A write callback that always fails (-1). -/
def wrFail : WriteFun := fun _ _ => false

/-- A write callback that always succeeds. -/
def wrOk : WriteFun := fun _ _ => true

/-- A read callback that always succeeds, returning a block filled with
the block number (mod 256). -/
def rdId : ReadFun := fun b => some (List.replicate 512 (b % 256))

/-- A two-slot cache with one valid slot for block 3 and one invalid slot. -/
def witCache : Cache :=
  { block := [{ state := .valid, blk_no := 3, buf := List.replicate 512 3 }, {}],
    pri := [0, 1] }

/-- A fresh two-slot cache pair (as after `mfat_mount` clears the context). -/
def freshCaches : Caches :=
  { data := { block := [{}, {}], pri := [0, 1] },
    fat := { block := [{}, {}], pri := [0, 1] } }

/-- A FAT16 partition starting at block 0 with one reserved block (so its
FAT begins at block 1), one block per cluster. -/
def fatPart16 : Partition :=
  { type := 2, first_block := 0, num_reserved_blocks := 1, blocks_per_cluster := 1,
    num_fats := 1, blocks_per_fat := 1, first_data_block := 2 }

/-- Content of the FAT block of `fatPart16`: the 16-bit entry for cluster 2
(byte offset 4) holds 3. -/
def fatDevBuf : List Nat := [0, 0, 0, 0, 3, 0] ++ List.replicate 506 0

/-- A device whose block 1 is `fatDevBuf` and whose other blocks are zero. -/
def rdFat : ReadFun := fun b => some (if b = 1 then fatDevBuf else List.replicate 512 0)

/-- An open read-only descriptor for a 100-byte file starting at cluster 2
of `fatPart16`. -/
def witFile : File :=
  { isOpen := true, oflag := 1, offset := 0, current_cluster := 2,
    info := { part_no := 0, size := 100, first_cluster := 2 } }

/-- A device every block of which reads as 512 zero bytes — every read
callback succeeds, but every FAT entry decodes to 0 (free cluster), i.e.
the FAT chain of any file is corrupt. -/
def rdZero : ReadFun := fun _ => some (List.replicate 512 0)

/-- An open read-only descriptor for a 1024-byte file starting at cluster 2
of `fatPart16` (reading it in full crosses a cluster boundary). -/
def cexReadFile : File :=
  { isOpen := true, oflag := 1, offset := 0, current_cluster := 2,
    info := { part_no := 0, size := 1024, first_cluster := 2 } }

/-- A context that is not initialized (as before `mfat_mount`, or after
`mfat_unmount`). -/
def uninitCtx : Ctx := {}

/-!
# Theorems

First a toolbox of lemmas about the canonicalizer, the cache, the FAT
walker and the read path; the claim theorems follow.
-/

/-! ### Canonicalizer lemmas -/

/-- `_mfat_canonicalize_char` is idempotent. -/
theorem canonChar_idem (c : Nat) : canonChar (canonChar c) = canonChar c := by
  by_cases hv : validFnameChar c = true
  · simp [canonChar, hv]
  · by_cases hl : (97 ≤ c && c ≤ 122) = true
    · have h1 : canonChar c = c - 32 := by simp [canonChar, hv, hl]
      simp only [Bool.and_eq_true, decide_eq_true_eq] at hl
      have hv2 : validFnameChar (c - 32) = true := by
        simp only [validFnameChar, Bool.or_eq_true, Bool.and_eq_true, decide_eq_true_eq,
          beq_iff_eq]
        omega
      rw [h1]
      simp [canonChar, hv2]
    · have h1 : canonChar c = 33 := by simp [canonChar, hv, hl]
      rw [h1]
      decide

/-- The canonicalizer's output characters are printable ASCII and never a
path terminator (NUL, `.`, `/`, `\`) nor the deleted-entry marker 0xE5. -/
theorem canonChar_range (c : Nat) :
    33 ≤ canonChar c ∧ canonChar c ≤ 126 ∧ canonChar c ≠ 46 ∧ canonChar c ≠ 47 ∧
    canonChar c ≠ 92 := by
  by_cases hv : validFnameChar c = true
  · have h1 : canonChar c = c := by simp [canonChar, hv]
    rw [h1]
    simp only [validFnameChar, Bool.or_eq_true, Bool.and_eq_true, decide_eq_true_eq,
      beq_iff_eq] at hv
    omega
  · by_cases hl : (97 ≤ c && c ≤ 122) = true
    · have h1 : canonChar c = c - 32 := by simp [canonChar, hv, hl]
      simp only [Bool.and_eq_true, decide_eq_true_eq] at hl
      rw [h1]
      omega
    · have h1 : canonChar c = 33 := by simp [canonChar, hv, hl]
      rw [h1]
      omega

/-- A byte that can appear in a canonicalized 8.3 name: a space (padding)
or an output of `_mfat_canonicalize_char`. -/
def GoodByte (b : Nat) : Prop := b = 32 ∨ ∃ d, canonChar d = b

theorem goodByte_not_term {b : Nat} (h : GoodByte b) : isNameTerm b = false := by
  rcases h with h | ⟨d, hd⟩
  · subst h; decide
  · have := canonChar_range d
    rw [hd] at this
    simp only [isNameTerm, Bool.or_eq_false_iff, beq_eq_false_iff_ne, ne_eq]
    omega

theorem goodByte_le {b : Nat} (h : GoodByte b) : b ≤ 126 := by
  rcases h with h | ⟨d, hd⟩
  · omega
  · have := canonChar_range d
    omega

/-- `splitPart` only ever drops elements: the remainder is no longer than
the input. -/
theorem splitPart_rest_le (term : Nat → Bool) (l : List Nat) :
    ((splitPart term l).2.2).length ≤ l.length := by
  induction l with
  | nil => simp [splitPart]
  | cons c rest ih =>
    by_cases h : term c = true
    · simp [splitPart, h]
    · simp only [splitPart, h]
      simpa using Nat.le_succ_of_le ih

/-- When `splitPart` reports a nonzero terminator it consumed it from the
list, so the remainder is strictly shorter. -/
theorem splitPart_rest_lt (term : Nat → Bool) (l : List Nat)
    (h : (splitPart term l).2.1 ≠ 0) : ((splitPart term l).2.2).length < l.length := by
  induction l with
  | nil => simp [splitPart] at h
  | cons c rest ih =>
    by_cases hc : term c = true
    · simp [splitPart, hc]
    · simp only [splitPart, hc] at h ⊢
      simp only [Bool.false_eq_true, if_false] at h ⊢
      exact Nat.lt_succ_of_lt (ih h)

/-- When the component ended in a directory separator, `canonPart` strictly
shortened the path. -/
theorem canonPart_rest_lt (path : List Nat)
    (h : (canonPart path).2.1 = 47 ∨ (canonPart path).2.1 = 92) :
    ((canonPart path).2.2).length < path.length := by
  unfold canonPart at h ⊢
  by_cases h46 : (splitPart isNameTerm path).2.1 = 46
  · simp only [h46, if_true] at h ⊢
    have h1 : (splitPart isExtTerm (splitPart isNameTerm path).2.2).2.1 ≠ 0 := by
      rcases h with h | h <;> omega
    calc ((splitPart isExtTerm (splitPart isNameTerm path).2.2).2.2).length
        < ((splitPart isNameTerm path).2.2).length := splitPart_rest_lt _ _ h1
      _ ≤ path.length := splitPart_rest_le _ _
  · simp only [h46, if_false] at h ⊢
    have h1 : (splitPart isNameTerm path).2.1 ≠ 0 := by rcases h with h | h <;> omega
    exact splitPart_rest_lt _ _ h1

/-- Every byte of a `canonPart` name is padding or a canonicalized
character. -/
theorem canonPart_good (path : List Nat) :
    ∀ b ∈ (canonPart path).1, GoodByte b := by
  intro b hb
  unfold canonPart at hb
  by_cases h46 : (splitPart isNameTerm path).2.1 = 46 <;>
    simp only [h46, if_true, if_false] at hb <;>
    rcases List.mem_append.1 hb with h | h
  · rcases List.mem_append.1 h with h1 | h1
    · have := List.mem_map.1 (List.mem_of_mem_take h1)
      rcases this with ⟨d, _, hd⟩
      exact Or.inr ⟨d, hd⟩
    · exact Or.inl (List.eq_of_mem_replicate h1)
  · rcases List.mem_append.1 h with h1 | h1
    · have := List.mem_map.1 (List.mem_of_mem_take h1)
      rcases this with ⟨d, _, hd⟩
      exact Or.inr ⟨d, hd⟩
    · exact Or.inl (List.eq_of_mem_replicate h1)
  · rcases List.mem_append.1 h with h1 | h1
    · have := List.mem_map.1 (List.mem_of_mem_take h1)
      rcases this with ⟨d, _, hd⟩
      exact Or.inr ⟨d, hd⟩
    · exact Or.inl (List.eq_of_mem_replicate h1)
  · exact Or.inl (List.eq_of_mem_replicate h)

/-- A `canonPart` name is exactly 11 bytes. -/
theorem canonPart_length (path : List Nat) : ((canonPart path).1).length = 11 := by
  unfold canonPart
  by_cases h46 : (splitPart isNameTerm path).2.1 = 46 <;>
    simp only [h46, if_true, if_false] <;>
    simp [spacePad, List.length_append, List.length_replicate] <;>
    omega

/-- The name computed by the fueled do-while loop is always a `canonPart`
name (given sufficient fuel, which `canonFname` always supplies). -/
theorem canonFnameF_shape :
    ∀ fuel path, path.length < fuel → ∃ q : List Nat, (canonFnameF fuel path).1 = (canonPart q).1 := by
  intro fuel
  induction fuel with
  | zero => intro path h; omega
  | succ n ih =>
    intro path h
    show ∃ q, (canonFnameF (n + 1) path).1 = (canonPart q).1
    rw [canonFnameF]
    by_cases hg : ((canonPart path).2.1 = 47 ∨ (canonPart path).2.1 = 92) ∧
        headNonzero (canonPart path).2.2 = true
    · simp only [hg, if_true]
      by_cases hsp : (canonPart path).1 = List.replicate 11 32
      · simp only [hsp, if_true]
        have hlt : ((canonPart path).2.2).length < path.length := canonPart_rest_lt _ hg.1
        exact ih _ (by omega)
      · simp only [hsp, if_false]
        exact ⟨path, rfl⟩
    · simp only [hg, if_false]
      exact ⟨path, rfl⟩

/-- Every byte of a canonicalized 8.3 name is padding or a canonicalized
character. -/
theorem canonName_good (path : List Nat) : ∀ b ∈ canonName path, GoodByte b := by
  obtain ⟨q, hq⟩ := canonFnameF_shape (path.length + 1) path (by omega)
  unfold canonName canonFname
  rw [hq]
  exact canonPart_good q

/-- A canonicalized 8.3 name is exactly 11 bytes. -/
theorem canonName_length (path : List Nat) : (canonName path).length = 11 := by
  obtain ⟨q, hq⟩ := canonFnameF_shape (path.length + 1) path (by omega)
  unfold canonName canonFname
  rw [hq]
  exact canonPart_length q

/-- `splitPart` passes a terminator-free list through whole. -/
theorem splitPart_no_term (term : Nat → Bool) (l : List Nat)
    (h : ∀ c ∈ l, term c = false) : splitPart term l = (l, 0, []) := by
  induction l with
  | nil => rfl
  | cons c rest ih =>
    have hc : term c = false := h c (List.mem_cons_self c rest)
    simp only [splitPart, hc, Bool.false_eq_true, if_false]
    rw [ih (fun d hd => h d (List.mem_cons_of_mem c hd))]

/-- Canonicalizing a terminator-free byte string: canonicalize the first 8
bytes, drop the rest, blank the extension field. -/
theorem canonName_no_term (y : List Nat) (hterm : ∀ c ∈ y, isNameTerm c = false) :
    canonName y = spacePad 8 ((y.map canonChar).take 8) ++ List.replicate 3 32 := by
  have hpart : canonPart y =
      (spacePad 8 ((y.map canonChar).take 8) ++ List.replicate 3 32, 0, []) := by
    unfold canonPart
    rw [splitPart_no_term isNameTerm y hterm]
    simp
  unfold canonName canonFname
  rw [canonFnameF, hpart]
  simp [headNonzero]

/-- On a good 11-byte name the canonicalizer acts as `canonChar` on the
first 8 bytes followed by a blank extension field. -/
theorem canonName_good11 (y : List Nat) (hlen : y.length = 11)
    (hgood : ∀ b ∈ y, GoodByte b) :
    canonName y = (y.take 8).map canonChar ++ List.replicate 3 32 := by
  have hterm : ∀ c ∈ y, isNameTerm c = false := fun c hc => goodByte_not_term (hgood c hc)
  rw [canonName_no_term y hterm]
  have h1 : (y.map canonChar).take 8 = (y.take 8).map canonChar := by
    rw [List.map_take]
  have h2 : ((y.map canonChar).take 8).length = 8 := by
    rw [List.length_take, List.length_map, hlen]
    decide
  rw [h1] at h2 ⊢
  unfold spacePad
  rw [h2]
  simp

/-- The canonicalizer is idempotent on good 11-byte names' images: applying
it twice to such a name gives the same as applying it once. -/
theorem canonName_stable (y : List Nat) (hlen : y.length = 11)
    (hgood : ∀ b ∈ y, GoodByte b) :
    canonName (canonName y) = canonName y := by
  have hz := canonName_good11 y hlen hgood
  set z := canonName y with hzdef
  have hzgood : ∀ b ∈ z, GoodByte b := by
    intro b hb
    rw [hz] at hb
    rcases List.mem_append.1 hb with h | h
    · rcases List.mem_map.1 h with ⟨d, _, hd⟩
      exact Or.inr ⟨d, hd⟩
    · exact Or.inl (List.eq_of_mem_replicate h)
  have hzlen : z.length = 11 := canonName_length y
  rw [canonName_good11 z hzlen hzgood]
  have htake : z.take 8 = (y.take 8).map canonChar := by
    rw [hz]
    have h8 : ((y.take 8).map canonChar).length = 8 := by
      rw [List.length_map, List.length_take, hlen]
      decide
    exact List.take_left' h8
  rw [htake, hz, List.map_map]
  congr 1
  apply List.map_congr_left
  intro a _
  exact canonChar_idem a

/-- Claim C9, counterexample: the canonicalizer is **not** idempotent.
`canonicalize("hello.txt") = "HELLO   TXT"`, but feeding that 11-byte
result back yields `"HELLO!!!   "`: the padding spaces are not valid name
characters (they canonicalize to `!`) and the extension bytes beyond the
first 8 are dropped. -/
theorem claim_C9_counterexample :
    canonName (canonName (strBytes "hello.txt")) ≠ canonName (strBytes "hello.txt") := by
  decide

/-- Claim C9 (amended): the canonicalizer is idempotent from the second
application onward — re-canonicalizing a twice-canonicalized component is
a fixed point (single idempotence fails, see the counterexample). -/
theorem claim_C9_amended (p : List Nat) :
    canonName (canonName (canonName p)) = canonName (canonName p) :=
  canonName_stable (canonName p) (canonName_length p) (canonName_good p)

/-! ### Directory-scan lemmas (claim C4) -/

/-- A `found` result of the entry scan means the 11-byte name field at the
found offset compares equal to the target. -/
theorem scanDirEntries_found_cmp (buf fname : List Nat) :
    ∀ fuel offs o, scanDirEntries buf fname fuel offs = .found o →
      cmpbuf buf fname o 0 11 = true := by
  intro fuel
  induction fuel with
  | zero =>
    intro offs o h
    simp [scanDirEntries] at h
  | succ n ih =>
    intro offs o h
    rw [scanDirEntries] at h
    split at h
    · split at h
      · exact ScanResult.noConfusion h
      · split at h
        · next hc =>
            cases h
            exact hc
        · exact ih _ o h
    · exact ScanResult.noConfusion h

/-- Byte-wise reading of a successful 11-byte comparison. -/
theorem cmpbuf_eleven {buf fname : List Nat} {o : Nat}
    (h : cmpbuf buf fname o 0 11 = true) :
    ∀ k, k < 11 → buf.getD (o + k) 0 = fname.getD k 0 := by
  intro k hk
  unfold cmpbuf at h
  rw [List.all_eq_true] at h
  have := h k (List.mem_range.2 hk)
  simpa using this

/-- The first byte of a canonicalized name is a good byte. -/
theorem canonName_head_good (p : List Nat) : GoodByte ((canonName p).getD 0 0) := by
  have hlen : (canonName p).length = 11 := canonName_length p
  have hmem : (canonName p).getD 0 0 ∈ canonName p := by
    rw [List.getD_eq_getElem?_getD, List.getElem?_eq_getElem (by omega)]
    exact List.getElem_mem _
  exact canonName_good p _ hmem

/-- Claim C4 (amended): during the per-block directory scan, (i) an entry
whose first byte is 0x00 terminates the scan; (ii) a deleted entry (first
byte 0xE5) is never returned as a match for a canonicalized target, since
canonical names contain only bytes ≤ 126; (iii) matching ignores the
attribute byte: a match is returned exactly by 11-byte name-field
equality, so a long-name entry (attribute 0x0F) is **not** skipped and is
returned whenever its name field equals the target (see the
counterexample). -/
theorem claim_C4_amended (buf p : List Nat) (fuel offs o : Nat) :
    (0 < fuel → offs < 512 → buf.getD offs 0 = 0 →
      scanDirEntries buf (canonName p) fuel offs = .noMore) ∧
    (scanDirEntries buf (canonName p) fuel offs = .found o → buf.getD o 0 ≠ 0xe5) ∧
    (scanDirEntries buf (canonName p) fuel offs = .found o →
      ∀ k, k < 11 → buf.getD (o + k) 0 = (canonName p).getD k 0) := by
  refine ⟨?_, ?_, ?_⟩
  · intro hf ho h0
    obtain ⟨m, rfl⟩ : ∃ m, fuel = m + 1 := ⟨fuel - 1, by omega⟩
    rw [scanDirEntries]
    rw [if_pos ho, if_pos h0]
  · intro h
    have hcmp := scanDirEntries_found_cmp buf (canonName p) fuel offs o h
    have h0 := cmpbuf_eleven hcmp 0 (by omega)
    simp only [Nat.add_zero] at h0
    have hgood := canonName_head_good p
    have hle := goodByte_le hgood
    omega
  · intro h
    exact cmpbuf_eleven (scanDirEntries_found_cmp buf (canonName p) fuel offs o h)

/-- Claim C4, witness for the amended theorem: in `delEntryBlock` the
deleted entry at offset 0 is skipped and the real entry `ABC` at offset 32
is found; its bytes match the canonicalized target. -/
theorem claim_C4_amended_witness :
    scanDirEntries delEntryBlock (canonName (strBytes "abc")) 17 0 = .found 32 ∧
    delEntryBlock.getD 32 0 ≠ 0xe5 ∧
    delEntryBlock.getD (32 + 0) 0 = (canonName (strBytes "abc")).getD 0 0 := by
  refine ⟨by decide, ?_, ?_⟩
  · exact (claim_C4_amended delEntryBlock (strBytes "abc") 17 0 32).2.1 (by decide)
  · exact (claim_C4_amended delEntryBlock (strBytes "abc") 17 0 32).2.2 (by decide) 0 (by omega)

/-- Claim C4, counterexample: a long-name entry (attribute byte 0x0F at
offset 11) **is** returned as a match for a canonicalized 8.3 target when
its 11-byte name field equals the target — the scan never inspects the
attribute byte. -/
theorem claim_C4_counterexample :
    scanDirBlock lfnEntryBlock (canonName (strBytes "abc")) = .found 0 ∧
    lfnEntryBlock.getD 11 0 = 0x0f := by
  decide

/-! ### Mount partition selection (claim C6) -/

/-- Unfolding one step of the selection loop. -/
theorem mountSelectGo_cons (i : Nat) (st : Option Nat × Option Nat) (p : Partition)
    (rest : List Partition) :
    mountSelectGo i st (p :: rest) =
      mountSelectGo (i + 1)
        (if p.type ≠ 0 then
          if p.boot = true ∧ st.1 = none then (some i, some i)
          else if st.2 = none then (st.1, some i) else st
        else st) rest := rfl

/-- Once both components of the selection state are set, the loop never
changes them again. -/
theorem mountSelectGo_frozen (parts : List Partition) :
    ∀ i b c, mountSelectGo i (some b, some c) parts = (some b, some c) := by
  induction parts with
  | nil => intro i b c; rfl
  | cons p rest ih =>
    intro i b c
    rw [mountSelectGo_cons]
    split_ifs with h1 h2 h3
    · simp at h2
    · simp at h3
    · exact ih _ _ _
    · exact ih _ _ _

/-- With the bootable slot still empty but an active partition already
recorded, the loop scans only for the first bootable FAT partition. -/
theorem mountSelectGo_scan (parts : List Partition) :
    ∀ i a, mountSelectGo i (none, some a) parts =
      match parts.findIdx? (fun q => decide (q.type ≠ 0) && q.boot) i with
      | some k => (some k, some k)
      | none => (none, some a) := by
  induction parts with
  | nil => intro i a; rfl
  | cons p rest ih =>
    intro i a
    rw [mountSelectGo_cons, List.findIdx?_cons]
    by_cases h1 : p.type ≠ 0
    · by_cases hb : p.boot = true
      · simp [h1, hb, mountSelectGo_frozen]
      · simp [h1, hb, ih]
    · simp [h1, ih]

/-- The selection loop from the initial state: the first bootable FAT
partition wins; otherwise the first FAT partition becomes active. -/
theorem mountSelectGo_main (parts : List Partition) :
    ∀ i, mountSelectGo i (none, none) parts =
      match parts.findIdx? (fun q => decide (q.type ≠ 0) && q.boot) i with
      | some k => (some k, some k)
      | none =>
        match parts.findIdx? (fun q => decide (q.type ≠ 0)) i with
        | some k => (none, some k)
        | none => (none, none) := by
  induction parts with
  | nil => intro i; rfl
  | cons p rest ih =>
    intro i
    rw [mountSelectGo_cons, List.findIdx?_cons, List.findIdx?_cons]
    by_cases h1 : p.type ≠ 0
    · by_cases hb : p.boot = true
      · simp [h1, hb, mountSelectGo_frozen]
      · simp [h1, hb, mountSelectGo_scan]
    · simp [h1, ih]

/-- `findIdx?` only depends on the predicate's values on the list. -/
theorem findIdx?_congr_mem {α : Type} (p q : α → Bool) :
    ∀ (l : List α) (i : Nat), (∀ a ∈ l, p a = q a) → l.findIdx? p i = l.findIdx? q i := by
  intro l
  induction l with
  | nil => intro i _; rfl
  | cons x xs ih =>
    intro i h
    rw [List.findIdx?_cons, List.findIdx?_cons, h x (List.mem_cons_self x xs)]
    by_cases hq : q x = true
    · simp [hq]
    · simp only [Bool.not_eq_true] at hq
      simp only [hq, Bool.false_eq_true, if_false]
      exact ih _ (fun a ha => h a (List.mem_cons_of_mem _ ha))

/-- Claim C6: after the partition tables have been decoded (each partition
is Unknown, FAT16 or FAT32), `mfat_mount` activates the first bootable
FAT partition, else the first FAT partition; and the selection is empty —
making mount return -1 — exactly when no FAT partition exists. -/
theorem claim_C6 (parts : List Partition)
    (htypes : ∀ p ∈ parts, p.type = 0 ∨ p.type = 2 ∨ p.type = 3) :
    (mountSelect parts =
      match parts.findIdx? (fun q => decide (q.type = 2 ∨ q.type = 3) && q.boot) with
      | some k => some k
      | none => parts.findIdx? (fun q => decide (q.type = 2 ∨ q.type = 3))) ∧
    (mountSelect parts = none ↔ ∀ p ∈ parts, ¬(p.type = 2 ∨ p.type = 3)) := by
  have hc1 : parts.findIdx? (fun q => decide (q.type ≠ 0) && q.boot) 0 =
      parts.findIdx? (fun q => decide (q.type = 2 ∨ q.type = 3) && q.boot) 0 :=
    findIdx?_congr_mem _ _ parts 0
      (fun a ha => by rcases htypes a ha with h | h | h <;> simp [h])
  have hc2 : parts.findIdx? (fun q => decide (q.type ≠ 0)) 0 =
      parts.findIdx? (fun q => decide (q.type = 2 ∨ q.type = 3)) 0 :=
    findIdx?_congr_mem _ _ parts 0
      (fun a ha => by rcases htypes a ha with h | h | h <;> simp [h])
  unfold mountSelect
  rw [mountSelectGo_main parts 0, hc1, hc2]
  constructor
  · cases hfa : parts.findIdx? (fun q => decide (q.type = 2 ∨ q.type = 3) && q.boot) with
    | some k => simp
    | none =>
      cases hfb : parts.findIdx? (fun q => decide (q.type = 2 ∨ q.type = 3)) with
      | some k => simp
      | none => simp
  · constructor
    · intro hnone
      cases hfa : parts.findIdx? (fun q => decide (q.type = 2 ∨ q.type = 3) && q.boot) with
      | some k => rw [hfa] at hnone; simp at hnone
      | none =>
        rw [hfa] at hnone
        cases hfb : parts.findIdx? (fun q => decide (q.type = 2 ∨ q.type = 3)) with
        | some k => rw [hfb] at hnone; simp at hnone
        | none =>
          intro p hp hcontra
          have := List.findIdx?_eq_none_iff.1 hfb p hp
          simp [hcontra] at this
    · intro hall
      have hB : parts.findIdx? (fun q => decide (q.type = 2 ∨ q.type = 3)) = none :=
        List.findIdx?_eq_none_iff.2 (fun x hx => by simp [hall x hx])
      have hA : parts.findIdx? (fun q => decide (q.type = 2 ∨ q.type = 3) && q.boot) = none :=
        List.findIdx?_eq_none_iff.2 (fun x hx => by simp [hall x hx])
      rw [hA, hB]

/-- Claim C6, witness: on `selParts` the bootable FAT32 partition at index
2 is selected over the FAT16 partition at index 1. -/
theorem claim_C6_witness :
    mountSelect selParts = some 2 ∧
    (mountSelect selParts = none ↔ ∀ p ∈ selParts, ¬(p.type = 2 ∨ p.type = 3)) :=
  ⟨by decide, (claim_C6 selParts (by decide)).2⟩

/-! ### Cache lemmas (claims C5 and C8) -/

theorem getD_eq_get {α : Type} {l : List α} {i : Nat} (d : α) (h : i < l.length) :
    l.getD i d = l[i] := by
  rw [List.getD_eq_getElem?_getD, List.getElem?_eq_getElem h]
  rfl

theorem getD_set_self {α : Type} {l : List α} {k : Nat} (a d : α) (h : k < l.length) :
    (l.set k a).getD k d = a := by
  rw [List.getD_eq_getElem?_getD, List.getElem?_set_self h]
  rfl

theorem getD_set_ne {α : Type} {l : List α} {k i : Nat} (a d : α) (h : k ≠ i) :
    (l.set k a).getD i d = l.getD i d := by
  rw [List.getD_eq_getElem?_getD, List.getElem?_set_ne h, List.getD_eq_getElem?_getD]

theorem getD_map_lt {α β : Type} (f : α → β) {l : List α} {i : Nat} (d : α) (d2 : β)
    (h : i < l.length) : (l.map f).getD i d2 = f (l.getD i d) := by
  rw [getD_eq_get d2 (by simpa using h), getD_eq_get d h, List.getElem_map]

theorem getLastD_mem (l : List Nat) (d : Nat) (h : l ≠ []) : l.getLastD d ∈ l := by
  induction l generalizing d with
  | nil => exact absurd rfl h
  | cons x xs ih =>
    rw [List.getLastD_cons]
    cases xs with
    | nil => simp [List.getLastD_nil]
    | cons y ys => exact List.mem_cons_of_mem x (ih x (List.cons_ne_nil y ys))

/-- The move-to-front loop moves the first occurrence of `item` to the
front (when present). -/
theorem mtfAux_eq (item : Nat) :
    ∀ (l : List Nat) (prev : Nat), item ∈ l →
      mtfAux prev item l = prev :: l.erase item := by
  intro l
  induction l with
  | nil => intro prev h; simp at h
  | cons x xs ih =>
    intro prev h
    by_cases hx : x = item
    · subst hx
      rw [mtfAux]
      simp [List.erase_cons_head]
    · rw [mtfAux]
      simp only [hx, if_false]
      have hmem : item ∈ xs := by
        rcases List.mem_cons.1 h with h1 | h1
        · exact absurd h1.symm hx
        · exact h1
      rw [ih x hmem, List.erase_cons_tail]
      simp [hx]

/-- MRU promotion preserves the priority-queue permutation. -/
theorem moveToFront_perm {item : Nat} {l : List Nat} (h : item ∈ l) :
    (moveToFront item l).Perm l := by
  rw [moveToFront, mtfAux_eq item l item h]
  exact (List.perm_cons_erase h).symm

/-- What a cache hit tells us about the hit slot. -/
theorem cacheHit_some {blocks : List CachedBlock} {blk i : Nat}
    (h : cacheHit blocks blk = some i) :
    i < blocks.length ∧ (blocks.getD i default).state ≠ .invalid ∧
    (blocks.getD i default).blk_no = blk := by
  unfold cacheHit at h
  rw [List.findIdx?_eq_some_iff_getElem] at h
  obtain ⟨hlt, hp, -⟩ := h
  rw [getD_eq_get default hlt]
  simp only [Bool.and_eq_true, bne_iff_ne, beq_iff_eq] at hp
  exact ⟨hlt, hp.1, hp.2⟩

/-- A cache miss: no non-Invalid slot holds the requested block. -/
theorem cacheHit_none {blocks : List CachedBlock} {blk : Nat}
    (h : cacheHit blocks blk = none) :
    ∀ j, j < blocks.length → (blocks.getD j default).state ≠ .invalid →
      (blocks.getD j default).blk_no ≠ blk := by
  intro j hj hs
  unfold cacheHit at h
  have := List.findIdx?_eq_none_iff.1 h (blocks.getD j default)
    (by rw [getD_eq_get default hj]; exact List.getElem_mem _)
  simp only [Bool.and_eq_false_iff, bne_eq_false_iff_eq, beq_eq_false_iff_ne] at this
  rcases this with h1 | h1
  · exact absurd h1 hs
  · exact h1

/-- `_mfat_get_cached_block`, hit branch (the selected slot already holds
the requested block): only the MRU queue changes. -/
theorem getCachedBlock_hit (wr : WriteFun) (blk : Nat) (cache : Cache) (item : Nat)
    (hi : (cacheHit cache.block blk).getD (cache.pri.getLastD 0) = item)
    (he : (cache.block.getD item default).blk_no = blk) :
    getCachedBlock wr blk cache =
      (some item, { cache with pri := moveToFront item cache.pri }) := by
  unfold getCachedBlock
  rw [hi]
  simp only []
  rw [if_neg (not_not_intro he)]

/-- `_mfat_get_cached_block`, failed-eviction branch: the selected slot is
dirty for another block and the write callback fails; the call returns
null and the slot is left untouched (still dirty), only the MRU queue
changes. -/
theorem getCachedBlock_evict_fail (wr : WriteFun) (blk : Nat) (cache : Cache) (item : Nat)
    (hi : (cacheHit cache.block blk).getD (cache.pri.getLastD 0) = item)
    (hne : (cache.block.getD item default).blk_no ≠ blk)
    (hd : (cache.block.getD item default).state = .dirty)
    (hw : wr (cache.block.getD item default).blk_no (cache.block.getD item default).buf
      = false) :
    getCachedBlock wr blk cache =
      (none, { cache with pri := moveToFront item cache.pri }) := by
  unfold getCachedBlock
  rw [hi]
  simp only []
  rw [if_pos hne, if_pos ⟨hd, hw⟩]

/-- `_mfat_get_cached_block`, reassignment branch: the slot is retargeted
to the requested block and invalidated. -/
theorem getCachedBlock_reassign (wr : WriteFun) (blk : Nat) (cache : Cache) (item : Nat)
    (hi : (cacheHit cache.block blk).getD (cache.pri.getLastD 0) = item)
    (hne : (cache.block.getD item default).blk_no ≠ blk)
    (hok : ¬((cache.block.getD item default).state = .dirty ∧
      wr (cache.block.getD item default).blk_no (cache.block.getD item default).buf
        = false)) :
    getCachedBlock wr blk cache =
      (some item,
        { block := cache.block.set item
            { cache.block.getD item default with blk_no := blk, state := .invalid },
          pri := moveToFront item cache.pri }) := by
  unfold getCachedBlock
  rw [hi]
  simp only []
  rw [if_pos hne, if_neg hok]

/-- The selected slot index of `_mfat_get_cached_block` is a valid index,
and the promoted MRU queue is still a permutation. -/
theorem getCachedBlock_item (blk : Nat) (cache : Cache)
    (hperm : cache.pri.Perm (List.range cache.block.length))
    (hpos : 0 < cache.block.length) :
    (cacheHit cache.block blk).getD (cache.pri.getLastD 0) ∈ cache.pri ∧
    (cacheHit cache.block blk).getD (cache.pri.getLastD 0) < cache.block.length ∧
    (moveToFront ((cacheHit cache.block blk).getD (cache.pri.getLastD 0))
      cache.pri).Perm (List.range cache.block.length) := by
  have hmem : (cacheHit cache.block blk).getD (cache.pri.getLastD 0) ∈ cache.pri := by
    cases hhit : cacheHit cache.block blk with
    | none =>
      have hne : cache.pri ≠ [] := by
        intro h0
        have := hperm.length_eq
        rw [h0] at this
        simp [List.length_range] at this
        omega
      simpa [hhit] using getLastD_mem cache.pri 0 hne
    | some i =>
      have hb := (cacheHit_some hhit).1
      simpa [hhit] using hperm.mem_iff.2 (List.mem_range.2 hb)
  refine ⟨hmem, ?_, (moveToFront_perm hmem).trans hperm⟩
  have := hperm.mem_iff.1 hmem
  simpa using this

/-- Full specification of `_mfat_get_cached_block` under the cache
invariant: the invariant is preserved (in both the success and the
failure case), and a returned slot holds exactly the requested block
number, uniquely among the non-Invalid slots. -/
theorem getCachedBlock_spec (wr : WriteFun) (blk : Nat) (cache : Cache)
    (hinv : CacheInv cache) (hpos : 0 < cache.block.length) :
    (getCachedBlock wr blk cache).2.block.length = cache.block.length ∧
    CacheInv (getCachedBlock wr blk cache).2 ∧
    ∀ i, (getCachedBlock wr blk cache).1 = some i →
      i < cache.block.length ∧
      ((getCachedBlock wr blk cache).2.block.getD i default).blk_no = blk ∧
      ∀ j, j < cache.block.length → j ≠ i →
        ((getCachedBlock wr blk cache).2.block.getD j default).state ≠ .invalid →
        ((getCachedBlock wr blk cache).2.block.getD j default).blk_no ≠ blk := by
  obtain ⟨hdist, hperm⟩ := hinv
  obtain ⟨hmem, hlt, hpp⟩ := getCachedBlock_item blk cache hperm hpos
  set item := (cacheHit cache.block blk).getD (cache.pri.getLastD 0) with hitem
  by_cases hbne : (cache.block.getD item default).blk_no ≠ blk
  · by_cases hdw : (cache.block.getD item default).state = .dirty ∧
        wr (cache.block.getD item default).blk_no (cache.block.getD item default).buf = false
    · rw [getCachedBlock_evict_fail wr blk cache item hitem.symm hbne hdw.1 hdw.2]
      exact ⟨rfl, ⟨hdist, hpp⟩, fun i h => by cases h⟩
    · rw [getCachedBlock_reassign wr blk cache item hitem.symm hbne hdw]
      have hhitnone : cacheHit cache.block blk = none := by
        cases hhit : cacheHit cache.block blk with
        | none => rfl
        | some i0 =>
          have h1 : item = i0 := by rw [hitem, hhit]; rfl
          have h2 := (cacheHit_some hhit).2.2
          rw [← h1] at h2
          exact absurd h2 hbne
      refine ⟨by simp, ⟨?_, ?_⟩, ?_⟩
      · intro i hi j hj ⟨hij, hsi, hsj⟩
        simp only [List.length_set] at hi hj
        by_cases hii : item = i
        · subst hii
          rw [getD_set_self _ default hlt] at hsi
          simp at hsi
        · by_cases hjj : item = j
          · subst hjj
            rw [getD_set_self _ default hlt] at hsj
            simp at hsj
          · rw [getD_set_ne _ default hii] at hsi ⊢
            rw [getD_set_ne _ default hjj] at hsj ⊢
            exact hdist i hi j hj ⟨hij, hsi, hsj⟩
      · simpa [List.length_set] using hpp
      · intro i hsome
        cases hsome
        refine ⟨hlt, ?_, ?_⟩
        · rw [getD_set_self _ default hlt]
        · intro j hj hji hsj
          rw [getD_set_ne _ default (fun h => hji h.symm)] at hsj ⊢
          exact cacheHit_none hhitnone j hj hsj
  · push_neg at hbne
    rw [getCachedBlock_hit wr blk cache item hitem.symm hbne]
    refine ⟨rfl, ⟨hdist, hpp⟩, ?_⟩
    intro i hsome
    cases hsome
    refine ⟨hlt, hbne, ?_⟩
    intro j hj hji hsj
    cases hhit : cacheHit cache.block blk with
    | none => exact cacheHit_none hhit j hj hsj
    | some i0 =>
      have h1 : item = i0 := by rw [hitem, hhit]; rfl
      have h2 := (cacheHit_some hhit).2
      rw [← h1] at h2
      have := hdist j hj item hlt ⟨hji, hsj, h2.1⟩
      rw [h2.2] at this
      exact this

/-- `_mfat_read_block` preserves the cache invariant and returns a slot
holding the requested block. -/
theorem readBlock_spec (rd : ReadFun) (wr : WriteFun) (blk : Nat) (cache : Cache)
    (hinv : CacheInv cache) (hpos : 0 < cache.block.length) :
    (readBlock rd wr blk cache).2.block.length = cache.block.length ∧
    CacheInv (readBlock rd wr blk cache).2 ∧
    ∀ i, (readBlock rd wr blk cache).1 = some i →
      ((readBlock rd wr blk cache).2.block.getD i default).blk_no = blk := by
  obtain ⟨hlen, hinv2, hpost⟩ := getCachedBlock_spec wr blk cache hinv hpos
  unfold readBlock
  cases hg : getCachedBlock wr blk cache with
  | mk r c =>
    rw [hg] at hlen hinv2 hpost
    simp only at hlen hinv2 hpost
    cases r with
    | none => exact ⟨hlen, hinv2, by intro i h; cases h⟩
    | some i =>
      obtain ⟨hilt, hiblk, huniq⟩ := hpost i rfl
      have hilt2 : i < c.block.length := by omega
      simp only []
      by_cases hs : (c.block.getD i default).state = .invalid
      · rw [if_pos hs]
        cases hrd : rd blk with
        | none => exact ⟨hlen, hinv2, by intro j h; cases h⟩
        | some buf =>
          obtain ⟨hdist2, hperm2⟩ := hinv2
          refine ⟨by simpa [List.length_set] using hlen, ⟨?_, ?_⟩, ?_⟩
          · intro a ha b hb ⟨hab, hsa, hsb⟩
            simp only [List.length_set] at ha hb
            by_cases haa : i = a
            · subst haa
              rw [getD_set_self _ default hilt2] at hsa ⊢
              rw [getD_set_ne _ default (fun h => hab h)] at hsb ⊢
              intro he
              have h3 : (c.block.getD b default).blk_no ≠ blk :=
                huniq b (by omega) (fun h => hab h.symm) hsb
              exact h3 (by rw [← he]; exact hiblk)
            · by_cases hbb : i = b
              · subst hbb
                rw [getD_set_self _ default hilt2] at hsb ⊢
                rw [getD_set_ne _ default haa] at hsa ⊢
                intro he
                have h3 : (c.block.getD a default).blk_no ≠ blk :=
                  huniq a (by omega) (fun h => haa h.symm) hsa
                exact h3 (by rw [he]; exact hiblk)
              · rw [getD_set_ne _ default haa] at hsa ⊢
                rw [getD_set_ne _ default hbb] at hsb ⊢
                exact hdist2 a ha b hb ⟨hab, hsa, hsb⟩
          · simpa [List.length_set] using hperm2
          · intro j h
            cases h
            rw [getD_set_self _ default hilt2]
            show (c.block.getD i default).blk_no = blk
            exact hiblk
      · rw [if_neg hs]
        exact ⟨hlen, hinv2, by intro j h; cases h; exact hiblk⟩

/-- `_mfat_sync_impl`'s per-cache flush preserves the cache invariant
(dirty slots become valid; block numbers and the MRU queue are
untouched). -/
theorem syncCache_inv (cache : Cache) (hinv : CacheInv cache) :
    CacheInv (syncCache cache) := by
  obtain ⟨hdist, hperm⟩ := hinv
  have hblk : ∀ x : CachedBlock,
      ((if x.state = .dirty then { x with state := .valid } else x) : CachedBlock).blk_no
        = x.blk_no := by
    intro x
    by_cases h : x.state = .dirty <;> simp [h]
  have horig : ∀ x : CachedBlock,
      ((if x.state = .dirty then { x with state := .valid } else x) : CachedBlock).state
        ≠ .invalid → x.state ≠ .invalid := by
    intro x hx hcon
    apply hx
    simp [hcon]
  constructor
  · intro a ha b hb ⟨hab, hsa, hsb⟩
    simp only [syncCache, List.length_map] at ha hb
    simp only [syncCache] at hsa hsb ⊢
    rw [getD_map_lt _ default default ha] at hsa ⊢
    rw [getD_map_lt _ default default hb] at hsb ⊢
    rw [hblk _, hblk _]
    exact hdist a ha b hb ⟨hab, horig _ hsa, horig _ hsb⟩
  · simpa [syncCache, List.length_map] using hperm

/-- Claim C5: `_mfat_get_cached_block` (and `_mfat_read_block` built on
it, and the `_mfat_sync_impl` flush — the only cache mutators, through
which every operation goes) preserve the cache invariant — non-Invalid
slots have pairwise distinct block numbers and the MRU priority list is a
permutation of `{0,…,N-1}` — and a slot returned by `get` holds exactly
the requested block number. -/
theorem claim_C5 (rd : ReadFun) (wr : WriteFun) (blk : Nat) (cache : Cache)
    (hinv : CacheInv cache) (hpos : 0 < cache.block.length) :
    (CacheInv (getCachedBlock wr blk cache).2 ∧
      ∀ i, (getCachedBlock wr blk cache).1 = some i →
        ((getCachedBlock wr blk cache).2.block.getD i default).blk_no = blk) ∧
    (CacheInv (readBlock rd wr blk cache).2 ∧
      ∀ i, (readBlock rd wr blk cache).1 = some i →
        ((readBlock rd wr blk cache).2.block.getD i default).blk_no = blk) ∧
    CacheInv (syncCache cache) := by
  obtain ⟨-, hinv1, hpost1⟩ := getCachedBlock_spec wr blk cache hinv hpos
  obtain ⟨-, hinv2, hpost2⟩ := readBlock_spec rd wr blk cache hinv hpos
  exact ⟨⟨hinv1, fun i h => (hpost1 i h).2.1⟩, ⟨hinv2, hpost2⟩, syncCache_inv cache hinv⟩

/-- Claim C5, witness: the invariant and the `get` postcondition on a
concrete two-slot cache receiving a request for block 9. -/
theorem claim_C5_witness :
    (CacheInv (getCachedBlock wrOk 9 witCache).2 ∧
      ∀ i, (getCachedBlock wrOk 9 witCache).1 = some i →
        ((getCachedBlock wrOk 9 witCache).2.block.getD i default).blk_no = 9) ∧
    (CacheInv (readBlock rdId wrOk 9 witCache).2 ∧
      ∀ i, (readBlock rdId wrOk 9 witCache).1 = some i →
        ((readBlock rdId wrOk 9 witCache).2.block.getD i default).blk_no = 9) ∧
    CacheInv (syncCache witCache) :=
  claim_C5 rdId wrOk 9 witCache ⟨by unfold CacheDistinct; decide, by decide⟩ (by decide)

/-- Claim C8, counterexample: when the dirty LRU slot (block 5) must be
evicted for block 9 and the write callback fails, `get` returns null but
the slot is **not** left in the Invalid state — it still holds block 5 and
is still Dirty (the C code returns before the invalidation line). -/
theorem claim_C8_counterexample :
    (getCachedBlock wrFail 9 cexCache).1 = none ∧
    ((getCachedBlock wrFail 9 cexCache).2.block.getD 0 default).state = .dirty ∧
    ((getCachedBlock wrFail 9 cexCache).2.block.getD 0 default).blk_no = 5 := by
  decide

/-- Claim C8 (amended): when serving `get(block_no)` selects a Dirty slot
holding a different block and the write callback for that block fails,
the operation fails (returns null, surfacing as -1) and the evicted slot
is left **unchanged — still Dirty with its old block number** (not
Invalid); only the MRU priority list is reordered. -/
theorem claim_C8_amended (wr : WriteFun) (blk : Nat) (cache : Cache) (item : Nat)
    (hi : (cacheHit cache.block blk).getD (cache.pri.getLastD 0) = item)
    (hne : (cache.block.getD item default).blk_no ≠ blk)
    (hd : (cache.block.getD item default).state = .dirty)
    (hw : wr (cache.block.getD item default).blk_no (cache.block.getD item default).buf
      = false) :
    (getCachedBlock wr blk cache).1 = none ∧
    (getCachedBlock wr blk cache).2.block = cache.block ∧
    (getCachedBlock wr blk cache).2.pri = moveToFront item cache.pri := by
  rw [getCachedBlock_evict_fail wr blk cache item hi hne hd hw]
  exact ⟨rfl, rfl, rfl⟩

/-- Claim C8, witness for the amended theorem, on the concrete cache of
the counterexample. -/
theorem claim_C8_amended_witness :
    (getCachedBlock wrFail 9 cexCache).1 = none ∧
    (getCachedBlock wrFail 9 cexCache).2.block = cexCache.block ∧
    (getCachedBlock wrFail 9 cexCache).2.pri = moveToFront 0 cexCache.pri :=
  claim_C8_amended wrFail 9 cexCache 0 (by decide) (by decide) (by decide) (by decide)

/-! ### Arithmetic and chain-walk lemmas (claims C1 and C2) -/

/-- `u32sub` is plain subtraction in range. -/
theorem u32sub_eq {a b : Nat} (hb : b ≤ a) (ha : a < u32) : u32sub a b = a - b := by
  unfold u32sub u32 at *
  omega

/-- `clusterBytes` does not wrap when `blocks_per_cluster` fits in a byte. -/
theorem clusterBytes_eq {part : Partition} (h : part.blocks_per_cluster ≤ 255) :
    clusterBytes part = part.blocks_per_cluster * 512 := by
  unfold clusterBytes u32
  omega

/-- Stepping to the next block crosses the cluster boundary. -/
theorem div_succ_boundary {b m : Nat} (hm : 0 < m) (h : b % m + 1 = m) :
    (b + 1) / m = b / m + 1 ∧ (b + 1) % m = 0 := by
  have h0 := Nat.div_add_mod b m
  have hb1 : b + 1 = m * (b / m + 1) := by
    rw [Nat.mul_succ]
    omega
  constructor
  · rw [hb1, Nat.mul_div_cancel_left _ hm]
  · rw [hb1, Nat.mul_mod_right]

/-- Stepping to the next block stays within the cluster. -/
theorem div_succ_inner {b m : Nat} (hm : 0 < m) (h : b % m + 1 ≠ m) :
    (b + 1) / m = b / m ∧ (b + 1) % m = b % m + 1 := by
  have hr : b % m < m := Nat.mod_lt _ hm
  have hr1 : b % m + 1 < m := by omega
  have h0 := Nat.div_add_mod b m
  have hb1 : b + 1 = m * (b / m) + (b % m + 1) := by omega
  constructor
  · rw [hb1, Nat.mul_add_div hm, Nat.div_eq_of_lt hr1, Nat.add_zero]
  · rw [hb1, Nat.mul_add_mod, Nat.mod_eq_of_lt hr1]

/-- Peeling a chain step at the near end. -/
theorem walkChain_peel (rd : ReadFun) (part : Partition) (k c : Nat) :
    walkChain rd part (k + 1) c = (fatNext rd part c).bind (walkChain rd part k) := by
  rw [walkChain]
  cases fatNext rd part c <;> rfl

/-- Peeling a chain step at the far end. -/
theorem walkChain_succ_right (rd : ReadFun) (part : Partition) :
    ∀ k c, walkChain rd part (k + 1) c =
      (walkChain rd part k c).bind (fatNext rd part) := by
  intro k
  induction k with
  | zero =>
    intro c
    rw [walkChain_peel]
    cases h : fatNext rd part c <;> simp [h, walkChain]
  | succ n ih =>
    intro c
    rw [walkChain_peel, walkChain_peel]
    cases h : fatNext rd part c with
    | none => rfl
    | some a =>
      simp only [Option.some_bind]
      exact ih a

/-- `_mfat_read_block` when the selected slot needs a device fill. -/
theorem readBlock_fill (rd : ReadFun) (wr : WriteFun) (blk : Nat) (cache c1 : Cache)
    (item : Nat) (buf : List Nat)
    (hget : getCachedBlock wr blk cache = (some item, c1))
    (hs : (c1.block.getD item default).state = .invalid)
    (hdev : rd blk = some buf) :
    readBlock rd wr blk cache =
      (some item,
        { c1 with
          block :=
            c1.block.set item
              { c1.block.getD item default with state := .valid, buf := buf } }) := by
  unfold readBlock
  rw [hget]
  simp only []
  rw [if_pos hs, hdev]

/-- `_mfat_read_block` when the selected slot already holds valid data. -/
theorem readBlock_nofill (rd : ReadFun) (wr : WriteFun) (blk : Nat) (cache c1 : Cache)
    (item : Nat)
    (hget : getCachedBlock wr blk cache = (some item, c1))
    (hs : (c1.block.getD item default).state ≠ .invalid) :
    readBlock rd wr blk cache = (some item, c1) := by
  unfold readBlock
  rw [hget]
  simp only []
  rw [if_neg hs]

/-! ### Clean-cache correspondence: in the read-only reachable states the
cached operations compute exactly their device-level counterparts -/

/-- `_mfat_min` is bounded by its first argument. -/
theorem mfatMin_le_left (a b : Nat) : mfatMin a b ≤ a := by
  unfold mfatMin
  split <;> omega

/-- `_mfat_min` is bounded by its second argument. -/
theorem mfatMin_le_right (a b : Nat) : mfatMin a b ≤ b := by
  unfold mfatMin
  split <;> omega

/-- The `nbyte > avail` clamp of `_mfat_read_impl` computes `_mfat_min`. -/
theorem clamp_eq_min (a b : Nat) : (if a > b then b else a) = mfatMin a b := by
  unfold mfatMin
  by_cases h : a > b
  · rw [if_pos h, if_neg (by omega)]
  · rw [if_neg h]
    by_cases h2 : a < b
    · rw [if_pos h2]
    · rw [if_neg h2]
      omega

/-- Filling a slot of a clean cache with the device contents of the block
the slot is tagged with keeps the cache clean. -/
theorem cacheClean_fill (rd : ReadFun) (bs : List CachedBlock) (pri : List Nat)
    (i blk : Nat) (buf : List Nat) (hilt : i < bs.length)
    (hcl : ∀ j, j < bs.length → (bs.getD j default).state ≠ .dirty ∧
      ((bs.getD j default).state = .valid →
        rd (bs.getD j default).blk_no = some (bs.getD j default).buf))
    (hblk : (bs.getD i default).blk_no = blk) (hdev : rd blk = some buf) :
    CacheClean rd
      { block := bs.set i { bs.getD i default with state := .valid, buf := buf },
        pri := pri } := by
  intro j hj
  have hj2 : j < (bs.set i { bs.getD i default with state := .valid, buf := buf }).length := hj
  rw [List.length_set] at hj2
  show ((bs.set i { bs.getD i default with state := .valid, buf := buf }).getD j
        default).state ≠ .dirty ∧
      (((bs.set i { bs.getD i default with state := .valid, buf := buf }).getD j
        default).state = .valid →
        rd ((bs.set i { bs.getD i default with state := .valid, buf := buf }).getD j
          default).blk_no =
        some ((bs.set i { bs.getD i default with state := .valid, buf := buf }).getD j
          default).buf)
  by_cases hji : i = j
  · subst hji
    rw [getD_set_self _ default hilt]
    refine ⟨(fun h => by cases h), fun _ => ?_⟩
    show rd (bs.getD i default).blk_no = some buf
    rw [hblk]
    exact hdev
  · rw [getD_set_ne _ default hji]
    exact hcl j hj2

/-- Retagging a slot of a clean cache as Invalid keeps the cache clean. -/
theorem cacheClean_invalidate (rd : ReadFun) (bs : List CachedBlock) (pri : List Nat)
    (i blk : Nat) (hilt : i < bs.length)
    (hcl : ∀ j, j < bs.length → (bs.getD j default).state ≠ .dirty ∧
      ((bs.getD j default).state = .valid →
        rd (bs.getD j default).blk_no = some (bs.getD j default).buf)) :
    CacheClean rd
      { block := bs.set i { bs.getD i default with blk_no := blk, state := .invalid },
        pri := pri } := by
  intro j hj
  have hj2 : j <
      (bs.set i { bs.getD i default with blk_no := blk, state := .invalid }).length := hj
  rw [List.length_set] at hj2
  show ((bs.set i { bs.getD i default with blk_no := blk, state := .invalid }).getD j
        default).state ≠ .dirty ∧
      (((bs.set i { bs.getD i default with blk_no := blk, state := .invalid }).getD j
        default).state = .valid →
        rd ((bs.set i { bs.getD i default with blk_no := blk, state := .invalid }).getD j
          default).blk_no =
        some ((bs.set i { bs.getD i default with blk_no := blk, state := .invalid }).getD j
          default).buf)
  by_cases hji : i = j
  · subst hji
    rw [getD_set_self _ default hilt]
    exact ⟨(fun h => by cases h), (fun h => by cases h)⟩
  · rw [getD_set_ne _ default hji]
    exact hcl j hj2

/-- With a clean cache (no dirty slot anywhere) `_mfat_get_cached_block`
always succeeds and the cache stays clean, the selected slot tagged with
the requested block number. -/
theorem getCachedBlock_clean (rd : ReadFun) (wr : WriteFun) (blk : Nat) (cache : Cache)
    (hinv : CacheInv cache) (hcl : CacheClean rd cache) (hpos : 0 < cache.block.length) :
    ∃ i c1, getCachedBlock wr blk cache = (some i, c1) ∧
      i < cache.block.length ∧ c1.block.length = cache.block.length ∧
      (c1.block.getD i default).blk_no = blk ∧ CacheClean rd c1 := by
  obtain ⟨hdist, hperm⟩ := hinv
  obtain ⟨hmem, hlt, hpp⟩ := getCachedBlock_item blk cache hperm hpos
  set item := (cacheHit cache.block blk).getD (cache.pri.getLastD 0) with hitem
  have hnd : (cache.block.getD item default).state ≠ .dirty := (hcl item hlt).1
  by_cases hbne : (cache.block.getD item default).blk_no ≠ blk
  · refine ⟨item,
      { block := cache.block.set item
          { cache.block.getD item default with blk_no := blk, state := .invalid },
        pri := moveToFront item cache.pri },
      getCachedBlock_reassign wr blk cache item hitem.symm hbne (fun hc => hnd hc.1),
      hlt, List.length_set .., ?_, ?_⟩
    · show ((cache.block.set item
          { cache.block.getD item default with blk_no := blk, state := .invalid }).getD
          item default).blk_no = blk
      rw [getD_set_self _ default hlt]
    · exact cacheClean_invalidate rd cache.block (moveToFront item cache.pri) item blk
        hlt hcl
  · push_neg at hbne
    exact ⟨item, { cache with pri := moveToFront item cache.pri },
      getCachedBlock_hit wr blk cache item hitem.symm hbne, hlt, rfl, hbne, hcl⟩

/-- With a clean cache and a successful device read, `_mfat_read_block`
succeeds and the returned slot holds exactly the device contents of the
requested block; the invariant, cleanliness and slot count are kept. -/
theorem readBlock_clean (rd : ReadFun) (wr : WriteFun) (blk : Nat) (cache : Cache)
    (buf : List Nat) (hinv : CacheInv cache) (hcl : CacheClean rd cache)
    (hpos : 0 < cache.block.length) (hdev : rd blk = some buf) :
    ∃ i c, readBlock rd wr blk cache = (some i, c) ∧ slotBuf c i = buf ∧
      CacheInv c ∧ CacheClean rd c ∧ c.block.length = cache.block.length := by
  obtain ⟨i, c1, hget, hilt, hlen1, hblk1, hcl1⟩ :=
    getCachedBlock_clean rd wr blk cache hinv hcl hpos
  obtain ⟨hlenS, hinvS, hblkS⟩ := readBlock_spec rd wr blk cache hinv hpos
  have hilt1 : i < c1.block.length := by omega
  cases hs : (c1.block.getD i default).state with
  | dirty => exact absurd hs (hcl1 i hilt1).1
  | valid =>
    have hrb := readBlock_nofill rd wr blk cache c1 i hget
      (by rw [hs]; exact fun h => by cases h)
    refine ⟨i, c1, hrb, ?_, ?_, hcl1, hlen1⟩
    · have h1 := (hcl1 i hilt1).2 hs
      rw [hblk1, hdev] at h1
      exact (Option.some.inj h1).symm
    · rw [hrb] at hinvS
      exact hinvS
  | invalid =>
    have hrb := readBlock_fill rd wr blk cache c1 i buf hget hs hdev
    refine ⟨i, _, hrb, ?_, ?_, ?_, ?_⟩
    · have he : (c1.block.set i
          { c1.block.getD i default with state := .valid, buf := buf }).getD i default =
          { c1.block.getD i default with state := .valid, buf := buf } :=
        getD_set_self _ default hilt1
      exact congrArg CachedBlock.buf he
    · rw [hrb] at hinvS
      exact hinvS
    · exact cacheClean_fill rd c1.block c1.pri i blk buf hilt1 hcl1 hblk1 hdev
    · rw [hrb] at hlenS
      exact hlenS

/-- `_mfat_read_block` on the cache pair, clean case: the device contents
of the requested block are returned and the cache pair stays good. -/
theorem readBlockC_clean (rd : ReadFun) (wr : WriteFun) (blk : Nat) (cls : CacheClass)
    (cs : Caches) (buf : List Nat) (hg : CachesGood rd cs) (hdev : rd blk = some buf) :
    ∃ cs2, readBlockC rd wr blk cls cs = (some buf, cs2) ∧ CachesGood rd cs2 := by
  obtain ⟨⟨hid, hcd, hpd⟩, hif, hcf, hpf⟩ := hg
  cases cls with
  | data =>
    obtain ⟨i, c, hrb, hbuf, hinv2, hcl2, hlen2⟩ :=
      readBlock_clean rd wr blk cs.data buf hid hcd hpd hdev
    refine ⟨{ cs with data := c },
      ?_, ⟨hinv2, hcl2, (show 0 < c.block.length by omega)⟩, hif, hcf, hpf⟩
    show (match readBlock rd wr blk cs.data with
      | (none, c) => ((none : Option (List Nat)), Caches.set cs .data c)
      | (some i, c) => (some (slotBuf c i), Caches.set cs .data c)) =
      (some buf, { cs with data := c })
    rw [hrb]
    simp only []
    rw [hbuf]
    rfl
  | fat =>
    obtain ⟨i, c, hrb, hbuf, hinv2, hcl2, hlen2⟩ :=
      readBlock_clean rd wr blk cs.fat buf hif hcf hpf hdev
    refine ⟨{ cs with fat := c },
      ?_, ⟨hid, hcd, hpd⟩, hinv2, hcl2, (show 0 < c.block.length by omega)⟩
    show (match readBlock rd wr blk cs.fat with
      | (none, c) => ((none : Option (List Nat)), Caches.set cs .fat c)
      | (some i, c) => (some (slotBuf c i), Caches.set cs .fat c)) =
      (some buf, { cs with fat := c })
    rw [hrb]
    simp only []
    rw [hbuf]
    rfl

/-- With good caches and a readable FAT block, `_mfat_next_cluster`
computes exactly the device-level `fatNext`. -/
theorem nextCluster_clean (rd : ReadFun) (wr : WriteFun) (part : Partition) (cluster : Nat)
    (cs : Caches) (hg : CachesGood rd cs) (buf : List Nat)
    (hdev : rd (fatBlockNo part cluster) = some buf) :
    ∃ cs2, nextCluster rd wr part cluster cs = (fatNext rd part cluster, cs2) ∧
      CachesGood rd cs2 := by
  obtain ⟨cs2, hrbc, hg2⟩ :=
    readBlockC_clean rd wr (fatBlockNo part cluster) .fat cs buf hg hdev
  refine ⟨cs2, ?_, hg2⟩
  unfold nextCluster fatNext fatDev
  rw [hrbc, hdev]
  simp only []
  by_cases h : decodeFatEntry part buf (fatBlockOffset part cluster) = 0 ∨
      decodeFatEntry part buf (fatBlockOffset part cluster) = 0x0ffffff7
  · rw [if_pos h, if_pos h]
  · rw [if_neg h, if_neg h]

/-- With good caches and a total device, `_mfat_cluster_pos_advance`
computes exactly the device-level `advDev`. -/
theorem clusterPosAdvance_clean (rd : ReadFun) (wr : WriteFun) (part : Partition)
    (cpos : ClusterPos) (cs : Caches) (hg : CachesGood rd cs)
    (htotal : ∀ b, (rd b).isSome) :
    ∃ cs2, clusterPosAdvance rd wr part cpos cs = (advDev rd part cpos, cs2) ∧
      CachesGood rd cs2 := by
  unfold clusterPosAdvance advDev
  simp only []
  by_cases hb : (cpos.block_in_cluster + 1) % u32 = part.blocks_per_cluster
  · rw [if_pos hb, if_pos hb]
    obtain ⟨buf, hdev⟩ :=
      Option.isSome_iff_exists.mp (htotal (fatBlockNo part cpos.cluster_no))
    obtain ⟨cs2, hnc, hg2⟩ := nextCluster_clean rd wr part cpos.cluster_no cs hg buf hdev
    rw [hnc]
    cases fatNext rd part cpos.cluster_no <;> exact ⟨cs2, rfl, hg2⟩
  · rw [if_neg hb, if_neg hb]
    exact ⟨cs, rfl, hg⟩

/-- With good caches and a total device, the head phase of
`_mfat_read_impl` computes exactly `headPure`. -/
theorem readHead_clean (rd : ReadFun) (wr : WriteFun) (part : Partition)
    (cc offset nbyte : Nat) (cs : Caches) (hg : CachesGood rd cs)
    (htotal : ∀ b, (rd b).isSome) :
    ∃ cs2, readHead rd wr part cc offset nbyte cs =
      (headPure rd part cc offset nbyte, cs2) ∧ CachesGood rd cs2 := by
  unfold readHead headPure
  simp only []
  by_cases h0 : offset % 512 ≠ 0
  · rw [if_pos h0, if_pos h0]
    obtain ⟨buf, hdev⟩ := Option.isSome_iff_exists.mp
      (htotal (cposBlkNo (clusterPosInitFromFile part cc offset)))
    obtain ⟨cs1, hrbc, hg1⟩ := readBlockC_clean rd wr
      (cposBlkNo (clusterPosInitFromFile part cc offset)) .data cs buf hg hdev
    rw [hrbc]
    simp only []
    by_cases hbc : mfatMin (512 - offset % 512) nbyte = 512 - offset % 512
    · rw [if_pos hbc, if_pos hbc]
      obtain ⟨cs2, hadv, hg2⟩ := clusterPosAdvance_clean rd wr part
        (clusterPosInitFromFile part cc offset) cs1 hg1 htotal
      rw [hadv]
      cases advDev rd part (clusterPosInitFromFile part cc offset) <;>
        exact ⟨cs2, rfl, hg2⟩
    · rw [if_neg hbc, if_neg hbc]
      exact ⟨cs1, rfl, hg1⟩
  · rw [if_neg h0, if_neg h0]
    exact ⟨cs, rfl, hg⟩

/-- With good caches and a total device, the aligned middle phase of
`_mfat_read_impl` computes exactly `bodyPure`, and the byte count of the
phase is `512·⌊remaining/512⌋`. -/
theorem readBody_clean (rd : ReadFun) (wr : WriteFun) (part : Partition)
    (htotal : ∀ b, (rd b).isSome) :
    ∀ fuel remaining cpos cs, CachesGood rd cs →
    ∃ cs2, readBody rd wr part fuel remaining cpos cs =
      ((bodyPure rd part fuel remaining cpos).map
        (fun cp => (512 * (remaining / 512), cp)), cs2) ∧ CachesGood rd cs2 := by
  intro fuel
  induction fuel with
  | zero =>
    intro remaining cpos cs hg
    exact ⟨cs, rfl, hg⟩
  | succ n ih =>
    intro remaining cpos cs hg
    rw [readBody, bodyPure]
    by_cases hr : remaining ≥ 512
    · rw [if_pos hr, if_pos hr]
      by_cases he : isEoc cpos.cluster_no
      · rw [if_pos he, if_pos he]
        exact ⟨cs, rfl, hg⟩
      · rw [if_neg he, if_neg he]
        obtain ⟨buf, hdev⟩ := Option.isSome_iff_exists.mp (htotal (cposBlkNo cpos))
        rw [hdev]
        simp only []
        obtain ⟨cs1, hadv, hg1⟩ := clusterPosAdvance_clean rd wr part cpos cs hg htotal
        rw [hadv]
        cases hA : advDev rd part cpos with
        | none => exact ⟨cs1, rfl, hg1⟩
        | some cp =>
          simp only []
          obtain ⟨cs2, hbody, hg2⟩ := ih (remaining - 512) cp cs1 hg1
          rw [hbody]
          refine ⟨cs2, ?_, hg2⟩
          cases hB : bodyPure rd part n (remaining - 512) cp with
          | none => rfl
          | some cp2 =>
            show (some (512 + 512 * ((remaining - 512) / 512), cp2), cs2) =
              (some (512 * (remaining / 512), cp2), cs2)
            have h512 : 512 + 512 * ((remaining - 512) / 512) =
                512 * (remaining / 512) := by omega
            rw [h512]
    · rw [if_neg hr, if_neg hr]
      refine ⟨cs, ?_, hg⟩
      show (some (0, cpos), cs) = (some (512 * (remaining / 512), cpos), cs)
      rw [Nat.div_eq_of_lt (by omega), Nat.mul_zero]

/-- The head phase never copies more than requested. -/
theorem headPure_le (rd : ReadFun) (part : Partition) (cc offset nbyte hb : Nat)
    (cpos1 : ClusterPos) (h : headPure rd part cc offset nbyte = some (hb, cpos1)) :
    hb ≤ nbyte := by
  unfold headPure at h
  simp only [] at h
  by_cases h0 : offset % 512 ≠ 0
  · rw [if_pos h0] at h
    by_cases hbc : mfatMin (512 - offset % 512) nbyte = 512 - offset % 512
    · rw [if_pos hbc] at h
      cases hA : advDev rd part (clusterPosInitFromFile part cc offset) with
      | none => rw [hA] at h; cases h
      | some cp =>
        rw [hA] at h
        simp only [Option.some.injEq, Prod.mk.injEq] at h
        rw [← h.1]
        exact mfatMin_le_right _ _
    · rw [if_neg hbc] at h
      simp only [Option.some.injEq, Prod.mk.injEq] at h
      rw [← h.1]
      exact mfatMin_le_right _ _
  · rw [if_neg h0] at h
    simp only [Option.some.injEq, Prod.mk.injEq] at h
    omega

/-! ### The cluster-cursor invariant along the read and seek paths -/

/-- `_mfat_cluster_pos_init_from_file` places the cursor at block index
`offset / 512` of the chain, given the file-descriptor invariant. -/
theorem cposOk_init (rd : ReadFun) (part : Partition) (f : File)
    (_hbpc : 0 < part.blocks_per_cluster) (hb255 : part.blocks_per_cluster ≤ 255)
    (hfd : fdInv rd part f) :
    cposOkB rd part f.info.first_cluster (f.offset / 512)
      (clusterPosInitFromFile part f.current_cluster f.offset) := by
  have hcb : clusterBytes part = part.blocks_per_cluster * 512 := clusterBytes_eq hb255
  unfold fdInv at hfd
  unfold cposOkB clusterPosInitFromFile clusterPosInit
  refine ⟨?_, ?_, rfl⟩
  · have h1 : f.offset / 512 / part.blocks_per_cluster = f.offset / clusterBytes part := by
      rw [Nat.div_div_eq_div_mul, hcb, Nat.mul_comm]
    rw [h1]
    exact hfd
  · show (f.offset % clusterBytes part) / 512 = f.offset / 512 % part.blocks_per_cluster
    rw [hcb, Nat.mul_comm, Nat.mod_mul_right_div_self]

/-- `_mfat_cluster_pos_advance` (device view) moves the cursor from block
index `b` to block index `b + 1` of the chain. -/
theorem advDev_ok (rd : ReadFun) (part : Partition) (first b : Nat)
    (cpos cpos2 : ClusterPos)
    (hbpc : 0 < part.blocks_per_cluster) (hb255 : part.blocks_per_cluster ≤ 255)
    (h : cposOkB rd part first b cpos) (hadv : advDev rd part cpos = some cpos2) :
    cposOkB rd part first (b + 1) cpos2 := by
  obtain ⟨hw, hbic, hsb⟩ := h
  unfold advDev at hadv
  simp only [] at hadv
  have hbu : cpos.block_in_cluster + 1 < u32 := by
    have h2 : b % part.blocks_per_cluster < part.blocks_per_cluster := Nat.mod_lt _ hbpc
    unfold u32
    omega
  rw [Nat.mod_eq_of_lt hbu] at hadv
  by_cases hcross : cpos.block_in_cluster + 1 = part.blocks_per_cluster
  · rw [if_pos hcross] at hadv
    cases hfn : fatNext rd part cpos.cluster_no with
    | none => rw [hfn] at hadv; cases hadv
    | some c =>
      rw [hfn] at hadv
      simp only [Option.some.injEq] at hadv
      subst hadv
      have hdiv := div_succ_boundary hbpc (by rw [← hbic]; exact hcross)
      refine ⟨?_, ?_, rfl⟩
      · rw [hdiv.1, walkChain_succ_right, hw, Option.some_bind]
        exact hfn
      · show (0 : Nat) = (b + 1) % part.blocks_per_cluster
        rw [hdiv.2]
  · rw [if_neg hcross] at hadv
    simp only [Option.some.injEq] at hadv
    subst hadv
    have hdiv := div_succ_inner hbpc (by rw [← hbic]; exact hcross)
    refine ⟨?_, ?_, ?_⟩
    · rw [hdiv.1]
      exact hw
    · show cpos.block_in_cluster + 1 = (b + 1) % part.blocks_per_cluster
      rw [hdiv.2, hbic]
    · exact hsb

/-- The head phase keeps the cursor on the chain: after copying `hb`
bytes the cursor stands at block `(offset + hb) / 512`, and either the
whole request was served by the head or the new offset is block-aligned. -/
theorem headPure_ok (rd : ReadFun) (part : Partition) (first cc offset nbyte hb : Nat)
    (cpos1 : ClusterPos)
    (hbpc : 0 < part.blocks_per_cluster) (hb255 : part.blocks_per_cluster ≤ 255)
    (h0 : cposOkB rd part first (offset / 512) (clusterPosInitFromFile part cc offset))
    (hh : headPure rd part cc offset nbyte = some (hb, cpos1)) :
    cposOkB rd part first ((offset + hb) / 512) cpos1 ∧
      (hb = nbyte ∨ (offset + hb) % 512 = 0) := by
  unfold headPure at hh
  simp only [] at hh
  by_cases hz : offset % 512 ≠ 0
  · rw [if_pos hz] at hh
    by_cases hbc : mfatMin (512 - offset % 512) nbyte = 512 - offset % 512
    · rw [if_pos hbc] at hh
      cases hA : advDev rd part (clusterPosInitFromFile part cc offset) with
      | none => rw [hA] at hh; cases hh
      | some cp =>
        rw [hA] at hh
        simp only [Option.some.injEq, Prod.mk.injEq] at hh
        obtain ⟨hh1, hh2⟩ := hh
        subst hh2
        have hhb : hb = 512 - offset % 512 := by rw [← hh1, hbc]
        have hdiv : (offset + hb) / 512 = offset / 512 + 1 := by omega
        have hmod : (offset + hb) % 512 = 0 := by omega
        rw [hdiv]
        exact ⟨advDev_ok rd part first (offset / 512) _ cp hbpc hb255 h0 hA, Or.inr hmod⟩
    · rw [if_neg hbc] at hh
      simp only [Option.some.injEq, Prod.mk.injEq] at hh
      obtain ⟨hh1, hh2⟩ := hh
      subst hh2
      have hhb : hb = nbyte := by
        by_cases hlt : 512 - offset % 512 < nbyte
        · exact absurd (by unfold mfatMin; rw [if_pos hlt]) hbc
        · rw [← hh1]
          unfold mfatMin
          rw [if_neg hlt]
      have hbne : hb ≠ 512 - offset % 512 := by rw [← hh1]; exact hbc
      have hle : hb ≤ 512 - offset % 512 := by rw [← hh1]; exact mfatMin_le_left _ _
      have hdiv : (offset + hb) / 512 = offset / 512 := by omega
      rw [hdiv]
      exact ⟨h0, Or.inl hhb⟩
  · rw [if_neg hz] at hh
    push_neg at hz
    simp only [Option.some.injEq, Prod.mk.injEq] at hh
    obtain ⟨hh1, hh2⟩ := hh
    subst hh2
    subst hh1
    rw [Nat.add_zero]
    exact ⟨h0, Or.inr hz⟩

/-- The aligned middle phase keeps the cursor on the chain: it advances
the block index by the number of whole blocks it copies. -/
theorem bodyPure_ok (rd : ReadFun) (part : Partition) (first : Nat)
    (hbpc : 0 < part.blocks_per_cluster) (hb255 : part.blocks_per_cluster ≤ 255) :
    ∀ fuel remaining B cpos cpos2, cposOkB rd part first B cpos →
    bodyPure rd part fuel remaining cpos = some cpos2 →
    cposOkB rd part first (B + remaining / 512) cpos2 := by
  intro fuel
  induction fuel with
  | zero =>
    intro remaining B cpos cpos2 h hbp
    cases hbp
  | succ n ih =>
    intro remaining B cpos cpos2 h hbp
    rw [bodyPure] at hbp
    by_cases hr : remaining ≥ 512
    · rw [if_pos hr] at hbp
      by_cases he : isEoc cpos.cluster_no
      · rw [if_pos he] at hbp
        cases hbp
      · rw [if_neg he] at hbp
        cases hA : advDev rd part cpos with
        | none => rw [hA] at hbp; cases hbp
        | some cp =>
          rw [hA] at hbp
          have h2 := ih (remaining - 512) (B + 1) cp cpos2
            (advDev_ok rd part first B cpos cp hbpc hb255 h hA) hbp
          have hq : B + 1 + (remaining - 512) / 512 = B + remaining / 512 := by omega
          rw [← hq]
          exact h2
    · rw [if_neg hr] at hbp
      simp only [Option.some.injEq] at hbp
      subst hbp
      have hq : remaining / 512 = 0 := by omega
      rw [hq, Nat.add_zero]
      exact h

/-- The cluster-skip loop of `_mfat_lseek_impl`: starting from a chain
position at a cluster-aligned byte offset `coff ≤ target`, a successful
walk returns the cluster reached by `⌊target / cluster_bytes⌋` chain steps
from `first`. -/
theorem lseekWalk_ok (rd : ReadFun) (wr : WriteFun) (part : Partition) (first : Nat)
    (hbpc : 0 < part.blocks_per_cluster) (hb255 : part.blocks_per_cluster ≤ 255)
    (htotal : ∀ b, (rd b).isSome) :
    ∀ fuel cur coff target cs c cs2, CachesGood rd cs →
    coff % clusterBytes part = 0 → coff ≤ target → target < u32 →
    walkChain rd part (coff / clusterBytes part) first = some cur →
    lseekWalk rd wr part fuel cur coff target cs = (some c, cs2) →
    walkChain rd part (target / clusterBytes part) first = some c := by
  intro fuel
  induction fuel with
  | zero =>
    intro cur coff target cs c cs2 _ _ _ _ _ hl
    cases hl
  | succ n ih =>
    intro cur coff target cs c cs2 hg hmod hle hlt hwalk hl
    rw [lseekWalk] at hl
    have hcb : clusterBytes part = part.blocks_per_cluster * 512 := clusterBytes_eq hb255
    have hcbpos : 0 < clusterBytes part := by
      rw [hcb]
      exact Nat.mul_pos hbpc (by norm_num)
    have hsubeq : u32sub target coff = target - coff := u32sub_eq hle hlt
    by_cases hc : u32sub target coff ≥ clusterBytes part
    · rw [if_pos hc] at hl
      by_cases he : isEoc cur
      · rw [if_pos he] at hl
        cases hl
      · rw [if_neg he] at hl
        obtain ⟨buf, hdev⟩ := Option.isSome_iff_exists.mp (htotal (fatBlockNo part cur))
        obtain ⟨cs3, hnc, hg3⟩ := nextCluster_clean rd wr part cur cs hg buf hdev
        rw [hnc] at hl
        cases hfn : fatNext rd part cur with
        | none =>
          rw [hfn] at hl
          simp only [] at hl
          cases hl
        | some c2 =>
          rw [hfn] at hl
          simp only [] at hl
          have hstep : coff + clusterBytes part ≤ target := by
            rw [hsubeq] at hc
            omega
          have hco2 : (coff + clusterBytes part) % u32 = coff + clusterBytes part :=
            Nat.mod_eq_of_lt (by omega)
          rw [hco2] at hl
          refine ih c2 (coff + clusterBytes part) target cs3 c cs2 hg3 ?_ hstep hlt ?_ hl
          · rw [Nat.add_mod_right]
            exact hmod
          · have hdivstep : (coff + clusterBytes part) / clusterBytes part =
                coff / clusterBytes part + 1 := Nat.add_div_right _ hcbpos
            rw [hdivstep, walkChain_succ_right, hwalk, Option.some_bind]
            exact hfn
    · rw [if_neg hc] at hl
      simp only [Prod.mk.injEq, Option.some.injEq] at hl
      obtain ⟨hcc, _⟩ := hl
      subst hcc
      have htc : target - coff < clusterBytes part := by
        rw [hsubeq] at hc
        omega
      have hdvd : clusterBytes part ∣ coff := Nat.dvd_of_mod_eq_zero hmod
      obtain ⟨k, hk⟩ := hdvd
      have htg : target = clusterBytes part * k + (target - coff) := by omega
      have hdiveq : target / clusterBytes part = coff / clusterBytes part := by
        rw [htg, Nat.mul_add_div hcbpos, Nat.div_eq_of_lt htc, Nat.add_zero, hk,
          Nat.mul_div_cancel_left _ hcbpos]
      rw [hdiveq]
      exact hwalk

/-! ### Read atomicity (claim C7) -/

/-- Claim C7: `_mfat_read_impl` is atomic with respect to the file
descriptor: on failure (-1, modelled `none`) the descriptor is returned
exactly as it was — whatever the reason (permission, device-callback
failure, EOC detection mid-read) — and on success `offset` and
`current_cluster` are the only fields updated, together, at the end. -/
theorem claim_C7 (rd : ReadFun) (wr : WriteFun) (part : Partition) (f : File)
    (nbyte : Nat) (cs : Caches) (hoff : f.offset < u32) :
    ((readImpl rd wr part f nbyte cs).1 = none →
      (readImpl rd wr part f nbyte cs).2.1 = f) ∧
    (∀ k, (readImpl rd wr part f nbyte cs).1 = some k →
      ∃ c, (readImpl rd wr part f nbyte cs).2.1 =
        { f with offset := (f.offset + k) % u32, current_cluster := c }) := by
  unfold readImpl
  by_cases h1 : f.oflag &&& 1 = 0
  · rw [if_pos h1]
    exact ⟨fun _ => rfl, fun k hk => Option.noConfusion hk⟩
  · rw [if_neg h1]
    simp only []
    by_cases h2 : (if nbyte > u32sub f.info.size f.offset then u32sub f.info.size f.offset
        else nbyte) = 0
    · rw [if_pos h2]
      refine ⟨fun h => Option.noConfusion h, fun k hk => ?_⟩
      cases hk
      refine ⟨f.current_cluster, ?_⟩
      have hofz : (f.offset + 0) % u32 = f.offset := by
        rw [Nat.add_zero]
        exact Nat.mod_eq_of_lt hoff
      rw [hofz]
    · rw [if_neg h2]
      set nb := (if nbyte > u32sub f.info.size f.offset then u32sub f.info.size f.offset
        else nbyte) with hnb
      cases hh : readHead rd wr part f.current_cluster f.offset nb cs with
      | mk ho hcs1 =>
        cases ho with
        | none => exact ⟨fun _ => rfl, fun k hk => Option.noConfusion hk⟩
        | some pr =>
          obtain ⟨hb, cpos1⟩ := pr
          simp only []
          cases hbody : readBody rd wr part ((nb - hb) / 512 + 1) (nb - hb) cpos1 hcs1 with
          | mk bo bcs =>
            cases bo with
            | none => exact ⟨fun _ => rfl, fun k hk => Option.noConfusion hk⟩
            | some pr2 =>
              obtain ⟨bb, cpos2⟩ := pr2
              simp only []
              by_cases h3 : hb + bb < nb
              · rw [if_pos h3]
                by_cases h4 : isEoc cpos2.cluster_no
                · rw [if_pos h4]
                  exact ⟨fun _ => rfl, fun k hk => Option.noConfusion hk⟩
                · rw [if_neg h4]
                  cases hrb : readBlockC rd wr (cposBlkNo cpos2) .data bcs with
                  | mk ro rcs =>
                    cases ro with
                    | none => exact ⟨fun _ => rfl, fun k hk => Option.noConfusion hk⟩
                    | some b =>
                      refine ⟨fun h => Option.noConfusion h, fun k hk => ?_⟩
                      cases hk
                      exact ⟨cpos2.cluster_no, rfl⟩
              · rw [if_neg h3]
                refine ⟨fun h => Option.noConfusion h, fun k hk => ?_⟩
                cases hk
                exact ⟨cpos2.cluster_no, rfl⟩

/-- Claim C7, witness: a 4-byte read on `witFile` over the `rdFat` device. -/
theorem claim_C7_witness :
    ((readImpl rdFat wrOk fatPart16 witFile 4 freshCaches).1 = none →
      (readImpl rdFat wrOk fatPart16 witFile 4 freshCaches).2.1 = witFile) ∧
    (∀ k, (readImpl rdFat wrOk fatPart16 witFile 4 freshCaches).1 = some k →
      ∃ c, (readImpl rdFat wrOk fatPart16 witFile 4 freshCaches).2.1 =
        { witFile with offset := (witFile.offset + k) % u32, current_cluster := c }) :=
  claim_C7 rdFat wrOk fatPart16 witFile 4 freshCaches (by decide)

/-! ### Uninitialized-context guards (claim C10) -/

/-- Claim C10: every integer-returning public operation other than mount —
`select_partition`, `open`, `close`, `read`, `write`, `lseek`, `stat`,
`fstat` — returns -1 and leaves the whole context unchanged when the
context is not initialized (before any successful mount, or after
unmount). -/
theorem claim_C10 (rd : ReadFun) (wr : WriteFun) (ctx : Ctx) (fd partition_no : Int)
    (offset : Int) (whence : Nat) (path : List Nat) (oflag nbyte : Nat)
    (hni : ctx.initd = false) :
    mfatSelectPartition ctx partition_no = (-1, ctx) ∧
    mfatOpen rd wr ctx path oflag = (-1, ctx) ∧
    mfatClose ctx fd = (-1, ctx) ∧
    mfatRead rd wr ctx fd nbyte = (-1, ctx) ∧
    mfatWrite ctx fd nbyte = (-1, ctx) ∧
    mfatLseek rd wr ctx fd offset whence = (-1, ctx) ∧
    mfatStat rd wr ctx path = (-1, none, ctx) ∧
    mfatFstat rd wr ctx fd = (-1, none, ctx) := by
  refine ⟨?_, ?_, ?_, ?_, ?_, ?_, ?_, ?_⟩
  · unfold mfatSelectPartition
    rw [if_pos hni]
  · unfold mfatOpen
    rw [if_pos (Or.inl hni)]
  · unfold mfatClose
    rw [if_pos hni]
  · unfold mfatRead
    rw [if_pos hni]
  · unfold mfatWrite
    rw [if_pos hni]
  · unfold mfatLseek
    rw [if_pos hni]
  · unfold mfatStat
    rw [if_pos (Or.inl hni)]
  · unfold mfatFstat
    rw [if_pos hni]

/-- Claim C10, witness: the guards on the default (uninitialized) context. -/
theorem claim_C10_witness :
    mfatSelectPartition uninitCtx 1 = (-1, uninitCtx) ∧
    mfatOpen rdFat wrOk uninitCtx (strBytes "/HELLO.TXT") 1 = (-1, uninitCtx) ∧
    mfatClose uninitCtx 0 = (-1, uninitCtx) ∧
    mfatRead rdFat wrOk uninitCtx 0 16 = (-1, uninitCtx) ∧
    mfatWrite uninitCtx 0 16 = (-1, uninitCtx) ∧
    mfatLseek rdFat wrOk uninitCtx 0 4 0 = (-1, uninitCtx) ∧
    mfatStat rdFat wrOk uninitCtx (strBytes "/HELLO.TXT") = (-1, none, uninitCtx) ∧
    mfatFstat rdFat wrOk uninitCtx 0 = (-1, none, uninitCtx) :=
  claim_C10 rdFat wrOk uninitCtx 0 1 4 0 (strBytes "/HELLO.TXT") 1 16 (by decide)

/-- Claim C3: given that the FAT block holding the entry of `cluster` reads
successfully (through the FAT cache) with bytes `buf`, `_mfat_next_cluster`
decodes the entry as: FAT32 — the raw 32-bit value reduced modulo 2^28
(the `& 0x0FFFFFFF` mask); FAT16 — the raw 16-bit word, OR-ed with
`0x0FFF0000` when it is ≥ `0xFFF7`.  The call fails exactly when the
decoded value is 0 (free) or `0x0FFFFFF7` (BAD); End-of-Chain values
(≥ `0x0FFFFFF8`) are returned as success. -/
theorem claim_C3 (rd : ReadFun) (wr : WriteFun) (part : Partition) (cluster : Nat)
    (cs cs' : Caches) (buf : List Nat) (v : Nat)
    (hread : readBlockC rd wr (fatBlockNo part cluster) .fat cs = (some buf, cs'))
    (hv : v = if part.type = 3 then getDword buf (fatBlockOffset part cluster) % 268435456
      else if getWord buf (fatBlockOffset part cluster) ≥ 0xfff7 then
        getWord buf (fatBlockOffset part cluster) ||| 0x0fff0000
      else getWord buf (fatBlockOffset part cluster)) :
    ((nextCluster rd wr part cluster cs).1 = none ↔ v = 0 ∨ v = 0x0ffffff7) ∧
    (∀ c, (nextCluster rd wr part cluster cs).1 = some c → c = v) ∧
    (v ≥ 0x0ffffff8 → (nextCluster rd wr part cluster cs).1 = some v) ∧
    (nextCluster rd wr part cluster cs).2 = cs' := by
  have hdec : decodeFatEntry part buf (fatBlockOffset part cluster) = v := by
    unfold decodeFatEntry
    rw [hv]
    by_cases ht : part.type = 3
    · simp only [ht, if_true]
      have hmask : (0x0fffffff : Nat) = 2 ^ 28 - 1 := by norm_num
      have hpow : (268435456 : Nat) = 2 ^ 28 := by norm_num
      rw [hmask, hpow, Nat.and_pow_two_sub_one_eq_mod]
    · simp only [ht, if_false]
  unfold nextCluster
  rw [hread]
  simp only []
  rw [hdec]
  by_cases hfail : v = 0 ∨ v = 0x0ffffff7
  · rw [if_pos hfail]
    refine ⟨by simp [hfail], ?_, ?_, rfl⟩
    · intro c h
      cases h
    · intro hge
      exfalso
      rcases hfail with h | h <;> omega
  · rw [if_neg hfail]
    refine ⟨by simp [hfail], ?_, fun _ => rfl, rfl⟩
    intro c h
    cases h
    rfl

set_option maxRecDepth 8192 in
/-- Claim C3, witness: on `fatPart16` the FAT entry of cluster 2 lives in
block 1 at byte offset 4 and holds 3, which `_mfat_next_cluster` returns. -/
theorem claim_C3_witness :
    ((nextCluster rdFat wrOk fatPart16 2 freshCaches).1 = none ↔
      (3 : Nat) = 0 ∨ (3 : Nat) = 0x0ffffff7) ∧
    (∀ c, (nextCluster rdFat wrOk fatPart16 2 freshCaches).1 = some c → c = 3) ∧
    ((3 : Nat) ≥ 0x0ffffff8 →
      (nextCluster rdFat wrOk fatPart16 2 freshCaches).1 = some 3) ∧
    (nextCluster rdFat wrOk fatPart16 2 freshCaches).2 =
      (readBlockC rdFat wrOk (fatBlockNo fatPart16 2) .fat freshCaches).2 :=
  claim_C3 rdFat wrOk fatPart16 2 freshCaches
    (readBlockC rdFat wrOk (fatBlockNo fatPart16 2) .fat freshCaches).2 fatDevBuf 3
    (by decide) (by decide)

/-! ### Read byte count (claim C1) -/

/-- Claim C1 (amended): with read permission, `offset ≤ size < 2^32`, good
clean caches, a device whose read callback always succeeds, and a FAT
chain that supports the whole read (`readOk`: no free/BAD FAT entry and no
premature End-of-Chain on the way), `_mfat_read_impl` returns exactly
`min(nbyte, size − offset)` bytes.  The chain condition cannot be dropped:
see `claim_C1_counterexample`. -/
theorem claim_C1_amended (rd : ReadFun) (wr : WriteFun) (part : Partition) (f : File)
    (nbyte0 : Nat) (cs : Caches)
    (hflag : f.oflag &&& 1 ≠ 0)
    (hoff : f.offset ≤ f.info.size) (hsize : f.info.size < u32)
    (hg : CachesGood rd cs) (htotal : ∀ b, (rd b).isSome)
    (hok : readOk rd part f nbyte0 = true) :
    (readImpl rd wr part f nbyte0 cs).1 =
      some (mfatMin nbyte0 (f.info.size - f.offset)) := by
  have havail : u32sub f.info.size f.offset = f.info.size - f.offset :=
    u32sub_eq hoff hsize
  unfold readOk at hok
  simp only [] at hok
  rw [havail, clamp_eq_min] at hok
  unfold readImpl
  rw [if_neg hflag]
  simp only []
  rw [havail, clamp_eq_min]
  set N := mfatMin nbyte0 (f.info.size - f.offset) with hNdef
  by_cases hz : N = 0
  · rw [if_pos hz, hz]
  · rw [if_neg hz]
    rw [if_neg hz] at hok
    obtain ⟨cs1, hhead, hg1⟩ :=
      readHead_clean rd wr part f.current_cluster f.offset N cs hg htotal
    rw [hhead]
    cases hH : headPure rd part f.current_cluster f.offset N with
    | none =>
      rw [hH] at hok
      cases hok
    | some p =>
      obtain ⟨hb, cpos1⟩ := p
      rw [hH] at hok
      simp only [] at hok
      simp only []
      obtain ⟨cs2, hbody, hg2⟩ :=
        readBody_clean rd wr part htotal ((N - hb) / 512 + 1) (N - hb) cpos1 cs1 hg1
      rw [hbody]
      cases hB : bodyPure rd part ((N - hb) / 512 + 1) (N - hb) cpos1 with
      | none =>
        rw [hB] at hok
        cases hok
      | some cpos2 =>
        rw [hB] at hok
        simp only [] at hok
        simp only [Option.map_some']
        by_cases hlt : hb + 512 * ((N - hb) / 512) < N
        · rw [if_pos hlt]
          rw [if_pos hlt] at hok
          have hne : isEoc cpos2.cluster_no = false := by simpa using hok
          rw [if_neg (show ¬isEoc cpos2.cluster_no = true by simp [hne])]
          obtain ⟨buf3, hdev3⟩ := Option.isSome_iff_exists.mp (htotal (cposBlkNo cpos2))
          obtain ⟨cs3, hrbc3, hg3⟩ :=
            readBlockC_clean rd wr (cposBlkNo cpos2) .data cs2 buf3 hg2 hdev3
          rw [hrbc3]
        · rw [if_neg hlt]
          have hble : hb ≤ N := headPure_le rd part f.current_cluster f.offset N hb cpos1 hH
          have hbytes : hb + 512 * ((N - hb) / 512) = N := by omega
          rw [hbytes]

set_option maxRecDepth 16384 in
/-- Claim C1, counterexample to the unconditional statement: on a device
whose read callback always succeeds on every block (and with a write
callback that always succeeds), reading 1024 bytes of the open read-only
1024-byte file `cexReadFile` returns −1 (`none`) rather than
`min(nbyte, size − offset) = 1024`, because the FAT entry of the file's
first cluster is 0 (free cluster — a corrupt chain): `read` can fail with
no device-callback failure. -/
theorem claim_C1_counterexample :
    (∀ b, (rdZero b).isSome) ∧
    (readImpl rdZero wrOk fatPart16 cexReadFile 1024 freshCaches).1 ≠
      some (mfatMin 1024 (cexReadFile.info.size - cexReadFile.offset)) :=
  ⟨fun _ => rfl, by decide⟩

set_option maxRecDepth 16384 in
/-- Claim C1 (amended), witness: a 4-byte read of the 100-byte file
`witFile` over the `rdFat` device returns exactly `min(4, 100 − 0) = 4`
bytes. -/
theorem claim_C1_amended_witness :
    (readImpl rdFat wrOk fatPart16 witFile 4 freshCaches).1 =
      some (mfatMin 4 (witFile.info.size - witFile.offset)) :=
  claim_C1_amended rdFat wrOk fatPart16 witFile 4 freshCaches (by decide) (by decide)
    (by decide)
    ⟨⟨⟨by unfold CacheDistinct; decide, by decide⟩, by unfold CacheClean; decide,
        by decide⟩,
      ⟨by unfold CacheDistinct; decide, by decide⟩, by unfold CacheClean; decide,
        by decide⟩
    (fun _ => rfl) (by decide)

/-! ### The file-descriptor chain invariant (claim C2) -/

/-- Claim C2: for an open descriptor, `current_cluster` is `first_cluster`
walked `⌊offset / (blocks_per_cluster·512)⌋` FAT-chain steps, and every
operation establishes or preserves this: a newly opened descriptor
(`offset = 0`, `current_cluster = first_cluster`) satisfies it trivially,
and a successful `_mfat_read_impl` or `_mfat_lseek_impl` on a descriptor
satisfying it (with `offset ≤ size < 2^32`, a sane cluster geometry, good
clean caches and a device whose read callback always succeeds) yields a
descriptor that satisfies it again. -/
theorem claim_C2 (rd : ReadFun) (wr : WriteFun) (part : Partition) (f : File)
    (cs : Caches)
    (hbpc : 0 < part.blocks_per_cluster) (hb255 : part.blocks_per_cluster ≤ 255)
    (hsize : f.info.size < u32) (hoff : f.offset ≤ f.info.size)
    (hg : CachesGood rd cs) (htotal : ∀ b, (rd b).isSome)
    (hfd : fdInv rd part f) :
    (∀ g : File, g.offset = 0 → g.current_cluster = g.info.first_cluster →
      fdInv rd part g) ∧
    (∀ nbyte0 n f2 cs2, readImpl rd wr part f nbyte0 cs = (some n, f2, cs2) →
      fdInv rd part f2) ∧
    (∀ off whence n f2 cs2, lseekImpl rd wr part f off whence cs = (some n, f2, cs2) →
      fdInv rd part f2) := by
  have hcb : clusterBytes part = part.blocks_per_cluster * 512 := clusterBytes_eq hb255
  have hcbpos : 0 < clusterBytes part := by
    rw [hcb]
    exact Nat.mul_pos hbpc (by norm_num)
  refine ⟨?_, ?_, ?_⟩
  · -- a freshly opened descriptor
    intro g h0 hc
    unfold fdInv
    rw [h0, Nat.zero_div, walkChain, hc]
  · -- `_mfat_read_impl` preserves the invariant
    intro nbyte0 n2 f2 csf hrun
    have havail : u32sub f.info.size f.offset = f.info.size - f.offset :=
      u32sub_eq hoff hsize
    unfold readImpl at hrun
    by_cases hflag : f.oflag &&& 1 = 0
    · rw [if_pos hflag] at hrun
      exact Option.noConfusion (congrArg Prod.fst hrun)
    rw [if_neg hflag] at hrun
    simp only [] at hrun
    rw [havail, clamp_eq_min] at hrun
    set N := mfatMin nbyte0 (f.info.size - f.offset) with hNdef
    have hNle : N ≤ f.info.size - f.offset := mfatMin_le_right _ _
    by_cases hz : N = 0
    · rw [if_pos hz] at hrun
      have hf2 : f = f2 := congrArg (fun p => p.2.1) hrun
      rw [← hf2]
      exact hfd
    rw [if_neg hz] at hrun
    obtain ⟨cs1, hhead, hg1⟩ :=
      readHead_clean rd wr part f.current_cluster f.offset N cs hg htotal
    rw [hhead] at hrun
    cases hH : headPure rd part f.current_cluster f.offset N with
    | none =>
      rw [hH] at hrun
      simp only [] at hrun
      exact Option.noConfusion (congrArg Prod.fst hrun)
    | some p =>
      obtain ⟨hb, cpos1⟩ := p
      rw [hH] at hrun
      simp only [] at hrun
      obtain ⟨cs2, hbody, hg2⟩ :=
        readBody_clean rd wr part htotal ((N - hb) / 512 + 1) (N - hb) cpos1 cs1 hg1
      rw [hbody] at hrun
      cases hB : bodyPure rd part ((N - hb) / 512 + 1) (N - hb) cpos1 with
      | none =>
        rw [hB] at hrun
        simp only [Option.map_none'] at hrun
        exact Option.noConfusion (congrArg Prod.fst hrun)
      | some cpos2 =>
        rw [hB] at hrun
        simp only [Option.map_some'] at hrun
        have hble : hb ≤ N :=
          headPure_le rd part f.current_cluster f.offset N hb cpos1 hH
        have hcpos0 := cposOk_init rd part f hbpc hb255 hfd
        obtain ⟨hc1, hcase⟩ := headPure_ok rd part f.info.first_cluster
          f.current_cluster f.offset N hb cpos1 hbpc hb255 hcpos0 hH
        have hc2 := bodyPure_ok rd part f.info.first_cluster hbpc hb255
          ((N - hb) / 512 + 1) (N - hb) ((f.offset + hb) / 512) cpos1 cpos2 hc1 hB
        have hb512 : (f.offset + N) / 512 = (f.offset + hb) / 512 + (N - hb) / 512 := by
          rcases hcase with hcase | hcase
          · omega
          · omega
        have hmodid : (f.offset + N) % u32 = f.offset + N :=
          Nat.mod_eq_of_lt (by unfold u32 at hsize ⊢; omega)
        have hgoal : walkChain rd part ((f.offset + N) / clusterBytes part)
            f.info.first_cluster = some cpos2.cluster_no := by
          have hdd : (f.offset + N) / clusterBytes part =
              ((f.offset + hb) / 512 + (N - hb) / 512) / part.blocks_per_cluster := by
            rw [hcb, Nat.mul_comm, ← Nat.div_div_eq_div_mul, hb512]
          rw [hdd]
          exact hc2.1
        by_cases hlt : hb + 512 * ((N - hb) / 512) < N
        · rw [if_pos hlt] at hrun
          by_cases he : isEoc cpos2.cluster_no
          · rw [if_pos he] at hrun
            exact Option.noConfusion (congrArg Prod.fst hrun)
          rw [if_neg he] at hrun
          obtain ⟨buf3, hdev3⟩ := Option.isSome_iff_exists.mp (htotal (cposBlkNo cpos2))
          obtain ⟨cs3, hrbc3, hg3⟩ :=
            readBlockC_clean rd wr (cposBlkNo cpos2) .data cs2 buf3 hg2 hdev3
          rw [hrbc3] at hrun
          simp only [] at hrun
          have hf2 :
              ({ f with
                  current_cluster := cpos2.cluster_no,
                  offset := (f.offset + N) % u32 } : File) = f2 :=
            congrArg (fun p => p.2.1) hrun
          rw [← hf2]
          show walkChain rd part (((f.offset + N) % u32) / clusterBytes part)
            f.info.first_cluster = some cpos2.cluster_no
          rw [hmodid]
          exact hgoal
        · rw [if_neg hlt] at hrun
          have hbytes : hb + 512 * ((N - hb) / 512) = N := by omega
          have hf2 :
              ({ f with
                  current_cluster := cpos2.cluster_no,
                  offset := (f.offset + (hb + 512 * ((N - hb) / 512))) % u32 } : File) =
                f2 :=
            congrArg (fun p => p.2.1) hrun
          rw [← hf2]
          show walkChain rd part
            (((f.offset + (hb + 512 * ((N - hb) / 512))) % u32) / clusterBytes part)
            f.info.first_cluster = some cpos2.cluster_no
          rw [hbytes, hmodid]
          exact hgoal
  · -- `_mfat_lseek_impl` preserves the invariant
    intro off whence n2 f2 csf hrun
    have hkey : ∀ t : Int, lseekImpl rd wr part f t 0 cs = (some n2, f2, csf) →
        fdInv rd part f2 := by
      intro t hrun0
      unfold lseekImpl at hrun0
      simp only [] at hrun0
      rw [if_pos trivial] at hrun0
      simp only [] at hrun0
      by_cases hneg : t < 0
      · rw [if_pos hneg] at hrun0
        exact Option.noConfusion (congrArg Prod.fst hrun0)
      rw [if_neg hneg] at hrun0
      by_cases hgt : t > (f.info.size : Int)
      · rw [if_pos hgt] at hrun0
        exact Option.noConfusion (congrArg Prod.fst hrun0)
      rw [if_neg hgt] at hrun0
      have htlt : t.toNat < u32 := by
        unfold u32 at hsize ⊢
        omega
      have hcoffmul : f.offset - f.offset % clusterBytes part =
          clusterBytes part * (f.offset / clusterBytes part) := by
        have h1 := Nat.div_add_mod f.offset (clusterBytes part)
        omega
      have hcoffmod : (f.offset - f.offset % clusterBytes part) % clusterBytes part = 0 := by
        rw [hcoffmul, Nat.mul_mod_right]
      have hcoffdiv : (f.offset - f.offset % clusterBytes part) / clusterBytes part =
          f.offset / clusterBytes part := by
        rw [hcoffmul, Nat.mul_div_cancel_left _ hcbpos]
      by_cases hstart : t.toNat < f.offset - f.offset % clusterBytes part
      · rw [if_pos hstart] at hrun0
        simp only [] at hrun0
        cases hLW : lseekWalk rd wr part (t.toNat + 1) f.info.first_cluster 0 t.toNat cs with
        | mk r cs1 =>
          rw [hLW] at hrun0
          cases r with
          | none =>
            simp only [] at hrun0
            exact Option.noConfusion (congrArg Prod.fst hrun0)
          | some c =>
            simp only [] at hrun0
            have hwc := lseekWalk_ok rd wr part f.info.first_cluster hbpc hb255 htotal
              (t.toNat + 1) f.info.first_cluster 0 t.toNat cs c cs1 hg
              (Nat.zero_mod _) (Nat.zero_le _) htlt
              (by rw [Nat.zero_div, walkChain]) hLW
            have hf2 : ({ f with offset := t.toNat, current_cluster := c } : File) = f2 :=
              congrArg (fun p => p.2.1) hrun0
            rw [← hf2]
            show walkChain rd part (t.toNat / clusterBytes part) f.info.first_cluster =
              some c
            exact hwc
      · rw [if_neg hstart] at hrun0
        simp only [] at hrun0
        cases hLW : lseekWalk rd wr part (t.toNat + 1) f.current_cluster
            (f.offset - f.offset % clusterBytes part) t.toNat cs with
        | mk r cs1 =>
          rw [hLW] at hrun0
          cases r with
          | none =>
            simp only [] at hrun0
            exact Option.noConfusion (congrArg Prod.fst hrun0)
          | some c =>
            simp only [] at hrun0
            have hwc := lseekWalk_ok rd wr part f.info.first_cluster hbpc hb255 htotal
              (t.toNat + 1) f.current_cluster (f.offset - f.offset % clusterBytes part)
              t.toNat cs c cs1 hg hcoffmod (by omega) htlt
              (by rw [hcoffdiv]; exact hfd) hLW
            have hf2 : ({ f with offset := t.toNat, current_cluster := c } : File) = f2 :=
              congrArg (fun p => p.2.1) hrun0
            rw [← hf2]
            show walkChain rd part (t.toNat / clusterBytes part) f.info.first_cluster =
              some c
            exact hwc
    by_cases hw0 : whence = 0
    · subst hw0
      exact hkey off hrun
    by_cases hw2 : whence = 2
    · subst hw2
      exact hkey ((f.info.size : Int) + off)
        ((show lseekImpl rd wr part f off 2 cs =
          lseekImpl rd wr part f ((f.info.size : Int) + off) 0 cs from rfl) ▸ hrun)
    by_cases hw1 : whence = 1
    · subst hw1
      exact hkey ((f.offset : Int) + off)
        ((show lseekImpl rd wr part f off 1 cs =
          lseekImpl rd wr part f ((f.offset : Int) + off) 0 cs from rfl) ▸ hrun)
    · unfold lseekImpl at hrun
      simp only [] at hrun
      rw [if_neg hw0, if_neg hw2, if_neg hw1] at hrun
      simp only [] at hrun
      exact Option.noConfusion (congrArg Prod.fst hrun)

/-- Claim C2, witness: the invariant instantiated on the concrete
descriptor `witFile` over the `rdFat` device with fresh caches. -/
theorem claim_C2_witness :
    (∀ g : File, g.offset = 0 → g.current_cluster = g.info.first_cluster →
      fdInv rdFat fatPart16 g) ∧
    (∀ nbyte0 n f2 cs2,
      readImpl rdFat wrOk fatPart16 witFile nbyte0 freshCaches = (some n, f2, cs2) →
      fdInv rdFat fatPart16 f2) ∧
    (∀ off whence n f2 cs2,
      lseekImpl rdFat wrOk fatPart16 witFile off whence freshCaches = (some n, f2, cs2) →
      fdInv rdFat fatPart16 f2) :=
  claim_C2 rdFat wrOk fatPart16 witFile freshCaches (by decide) (by decide) (by decide)
    (by decide)
    ⟨⟨⟨by unfold CacheDistinct; decide, by decide⟩, by unfold CacheClean; decide,
        by decide⟩,
      ⟨by unfold CacheDistinct; decide, by decide⟩, by unfold CacheClean; decide,
        by decide⟩
    (fun _ => rfl) rfl

end MFat
